import Mathlib

/-!
# Eden game server: spatial map, command dispatch and session reads

A shallow embedding of `Map.cpp` (cell grid, position clamping, neighbourhood search,
entity lookup), of `CommandManager.cpp` (command tokenising and dispatch) and of
`Session::handleRead` in `Session.cpp` (length-prefixed frames).

Modelling conventions.

* `size_t` values are natural numbers; every `size_t` operation that can leave the range
  is written with an explicit `% 2 ^ 64`.
* A `float` coordinate is modelled by the exact rational number it denotes.  The first
  embedding of the map functions takes positions with finite coordinates and converts
  between `size_t` and `float` exactly (true for every value below `2 ^ 24`, which covers
  the map sizes 1024 and 2048).  The section on float positions embeds the same functions
  on every `float` value, NaN and the infinities included, with the conversion of
  `size_` rounded to `float` under the rounding direction in force; both embeddings agree
  on finite coordinates (`fp_adjustPosition_toFp`, `fp_getCellIndex_toFp`).
* A `Position&` parameter is modelled by returning the mutated position next to the result.
* A `std::shared_ptr<MapCell>` into `cells_` is modelled by the index of the cell.
* A thrown C++ exception is the `Except.error` branch.
-/

namespace Eden

/-! ## Machine integers -/

/-- One more than the largest `size_t` (64-bit targets). -/
def SIZE_T_RANGE : Nat := 2 ^ 64

/-- The largest `int`: the counter of the cell generation loop in `Map::load` is an `int`. -/
def INT_MAX : Nat := 2 ^ 31 - 1

/-- The number of values of `uint16_t`, the type of the map id. -/
def UINT16_RANGE : Nat := 2 ^ 16

/-- Source: `constexpr auto CELL_SIZE = 16;` -/
def CELL_SIZE : Nat := 16

/-- Source: `constexpr auto OBSERVABLE_CELL_RADIUS = 3;` -/
def OBSERVABLE_CELL_RADIUS : Nat := 3

/-- Addition of two `size_t` values. -/
def sizeAdd (a b : Nat) : Nat := (a + b) % SIZE_T_RANGE

/-- Subtraction of two `size_t` values (wraps below zero). -/
def sizeSub (a b : Nat) : Nat := (a + SIZE_T_RANGE - b % SIZE_T_RANGE) % SIZE_T_RANGE

/-- Multiplication of two `size_t` values. -/
def sizeMul (a b : Nat) : Nat := (a * b) % SIZE_T_RANGE

/-! ## Exceptions -/

/-- The exceptions the modelled code can raise. -/
inductive Exn where
  /-- Thrown by `ptree::get` when the path is absent: `ptree_bad_path`. -/
  | ptreeBadPath
  /-- Thrown by `ptree::get` when the value does not convert: `ptree_bad_data`. -/
  | ptreeBadData
  /-- Thrown by `std::vector::at` and `std::string::substr`: `std::out_of_range`. -/
  | outOfRange
  /-- Thrown by `boost::escaped_list_separator`: `escaped_list_error`. -/
  | escapedListError
  /-- Behaviour the C++ standard leaves undefined. -/
  | undefinedBehaviour
  /-- Something thrown by a command handler that is not a `std::exception`. -/
  | foreignException
deriving DecidableEq, Repr

/-! ## Positions and floating point conversion -/

/-- Rounding direction of the floating point environment (`<cfenv>`). -/
inductive RoundingMode where
  | toNearest
  | towardZero
  | upward
  | downward
deriving DecidableEq, Repr

/-- Model of `std::nearbyint` under a given rounding direction; `toNearest` breaks ties
towards the even integer. -/
def nearbyint (mode : RoundingMode) (v : ℚ) : ℤ :=
  match mode with
  | .towardZero => if 0 ≤ v then ⌊v⌋ else ⌈v⌉
  | .upward => ⌈v⌉
  | .downward => ⌊v⌋
  | .toNearest =>
    if v - ⌊v⌋ < 1 / 2 then ⌊v⌋
    else if 1 / 2 < v - ⌊v⌋ then ⌊v⌋ + 1
    else if ⌊v⌋ % 2 = 0 then ⌊v⌋ else ⌊v⌋ + 1

/-- Model of `static_cast<size_t>` applied to an integral floating point value.  Values
outside `[0, 2 ^ 64)` are undefined behaviour in C++; the model wraps them. -/
def toSizeT (i : ℤ) : Nat := (i % (SIZE_T_RANGE : ℤ)).toNat

/-- Modelled from the spec: `Position` (its header is not part of the sources) holds a
world/map id and the floating coordinates x, y, z; here with finite coordinates, see
`Fp.Position` for NaN and the infinities. -/
structure Position where
  map : Nat
  x : ℚ
  y : ℚ
  z : ℚ
deriving DecidableEq

/-! ## Entities, cells and the map -/

/-- Modelled from the spec: the `EntityType` tag (its header is not part of the sources);
`Mob.cpp` and `Character.cpp` use `EntityType::Mob` and `EntityType::Character`. -/
inductive EntityType where
  | Character
  | Npc
  | GroundItem
  | Mob
deriving DecidableEq, Repr

/-- Modelled from the spec: a shared reference to an entity, identified by its type tag
and its id ("unique id, scoped per type"). -/
structure EntityRef where
  type : EntityType
  id : Nat
deriving DecidableEq, Repr

/-- Modelled from the spec: an entity has an identity and a mutable position. -/
structure Entity where
  ref : EntityRef
  position : Position
deriving DecidableEq

/-- Modelled from the spec: `MapCell` (not part of the sources) is a bucket of entity
references for one grid square. -/
structure MapCell where
  entities : List EntityRef
deriving DecidableEq, Repr

/-- Modelled from the spec: `MapCell::addEntity` inserts the entity reference. -/
def MapCell.addEntity (cell : MapCell) (e : EntityRef) : MapCell :=
  { entities := cell.entities ++ [e] }

/-- Modelled from the spec: `MapCell::removeEntity` removes the entity reference; it is a
no-op when the entity is not present. -/
def MapCell.removeEntity (cell : MapCell) (e : EntityRef) : MapCell :=
  { entities := cell.entities.filter (fun r => decide (r ≠ e)) }

/-- The fields of `Map`: `id_`, `size_`, `rowCount_`, `columnCount_`, `cells_`. -/
structure Map where
  id : Nat
  size : Nat
  rowCount : Nat
  columnCount : Nat
  cells : List MapCell
deriving DecidableEq

/-- Source: `Map::adjustPosition`.  The comparisons convert `size_` to `float`; `size_ - 1`
is computed in `size_t` and then converted. -/
def adjustPosition (m : Map) (position : Position) : Position :=
  let position := if position.x < 0 then { position with x := 0 } else position
  let position := if position.y < 0 then { position with y := 0 } else position
  let position := if position.z < 0 then { position with z := 0 } else position
  let position :=
    if position.x ≥ (m.size : ℚ) then { position with x := ((sizeSub m.size 1 : Nat) : ℚ) }
    else position
  let position :=
    if position.z ≥ (m.size : ℚ) then { position with z := ((sizeSub m.size 1 : Nat) : ℚ) }
    else position
  position

/-- Source: `Map::getCellIndex`.  The rounding direction is set to `FE_TOWARDZERO` before
the coordinates are converted.  Returns the adjusted position and the index. -/
def getCellIndex (m : Map) (position : Position) : Position × Nat :=
  let position := adjustPosition m position
  let x := min (toSizeT (nearbyint RoundingMode.towardZero position.x)) m.size
  let z := min (toSizeT (nearbyint RoundingMode.towardZero position.z)) m.size
  let row := x / CELL_SIZE
  let column := z / CELL_SIZE
  (position, sizeAdd row (sizeMul column m.rowCount))

/-- Source: `Map::getCell`.  The returned cell is identified by its index in `cells_`;
`cells_.at` throws `std::out_of_range` for an index that is not below `cells_.size()`. -/
def getCell (m : Map) (position : Position) : Except Exn (Position × Nat) :=
  let position := adjustPosition m position
  let r := getCellIndex m position
  if r.2 < m.cells.length then Except.ok (r.1, r.2) else Except.error Exn.outOfRange

/-- The values visited by `for (auto v = first; v < limit; v++)` on `size_t`. -/
def forRange (first limit : Nat) : List Nat := List.range' first (limit - first)

/-- Source: `Map::getNeighbouringCells`.  Unlike `getCellIndex` this function does not set
the rounding direction, so the direction in force is a parameter.  The loop variables
`row` and `column` are `size_t`.  Returns the adjusted position and the indices of the
cells pushed onto the result, in push order. -/
def getNeighbouringCells (m : Map) (mode : RoundingMode) (position : Position) :
    Position × List Nat :=
  let position := adjustPosition m position
  let x := min (toSizeT (nearbyint mode position.x)) m.size
  let z := min (toSizeT (nearbyint mode position.z)) m.size
  let centerRow := x / CELL_SIZE
  let centerColumn := z / CELL_SIZE
  let maxRow := sizeAdd centerRow OBSERVABLE_CELL_RADIUS
  let maxColumn := sizeAdd centerColumn OBSERVABLE_CELL_RADIUS
  let cells :=
    (forRange (sizeSub centerRow OBSERVABLE_CELL_RADIUS) maxRow).flatMap fun row =>
      (forRange (sizeSub centerColumn OBSERVABLE_CELL_RADIUS) maxColumn).flatMap fun column =>
        let id := sizeAdd row (sizeMul column m.rowCount)
        if 0 ≤ id ∧ id < m.cells.length then [id] else []
  (position, cells)

/-- The entities of the cell with a given index (`cell->entities()`). -/
def Map.entitiesAt (m : Map) (index : Nat) : List EntityRef :=
  match m.cells.get? index with
  | some cell => cell.entities
  | none => []

/-- The inner loop of `Map::get`: the first entity of one cell with the given type and
id. -/
def findInCell (entities : List EntityRef) (id : Nat) (type : EntityType) : Option EntityRef :=
  match entities with
  | [] => none
  | entity :: rest =>
    if entity.type ≠ type then findInCell rest id type
    else if entity.id = id then some entity
    else findInCell rest id type

/-- The outer loop of `Map::get` over the neighbouring cells. -/
def findInCells (m : Map) (neighbours : List Nat) (id : Nat) (type : EntityType) :
    Option EntityRef :=
  match neighbours with
  | [] => none
  | cell :: rest =>
    match findInCell (m.entitiesAt cell) id type with
    | some entity => some entity
    | none => findInCells m rest id type

/-- Source: `Map::get`.  Returns the adjusted position and the entity found (`none` is
`nullptr`). -/
def get (m : Map) (mode : RoundingMode) (pos : Position) (id : Nat) (type : EntityType) :
    Position × Option EntityRef :=
  let r := getNeighbouringCells m mode pos
  (r.1, findInCells m r.2 id type)

/-- The two fields `Map::load` reads from the parsed JSON document: `none` stands for an
absent field. -/
structure MapDefinition where
  id : Option Nat
  size : Option Nat
deriving DecidableEq

/-- Model of `ptree::get<T>` for an unsigned integer type with `range` values. -/
def ptreeGet (field : Option Nat) (range : Nat) : Except Exn Nat :=
  match field with
  | none => Except.error Exn.ptreeBadPath
  | some v => if v < range then Except.ok v else Except.error Exn.ptreeBadData

/-- Source: `Map::load`.  The generation loop counts with an `int`; a cell total above
`INT_MAX` overflows the counter, which is undefined behaviour. -/
def load (tree : MapDefinition) : Except Exn Map :=
  match ptreeGet tree.id UINT16_RANGE with
  | Except.error e => Except.error e
  | Except.ok id =>
    match ptreeGet tree.size SIZE_T_RANGE with
    | Except.error e => Except.error e
    | Except.ok size =>
      let rowCount := size / CELL_SIZE
      let columnCount := rowCount
      let totalCells := sizeMul rowCount columnCount
      if totalCells ≤ INT_MAX then
        Except.ok
          { id := id, size := size, rowCount := rowCount, columnCount := columnCount,
            cells := List.replicate totalCells { entities := [] } }
      else Except.error Exn.undefinedBehaviour

/-- Applies a mutation to the cell behind a cell reference: `cell->f(...)` for the cell
with the given index in `cells_`. -/
def updateCell (f : MapCell → MapCell) : List MapCell → Nat → List MapCell
  | [], _ => []
  | c :: cs, 0 => f c :: cs
  | c :: cs, n + 1 => c :: updateCell f cs n

/-- Source: `Map::add`.  The entity's position is adjusted in place; the entity reference
is added to the cell that `getCell` resolves. -/
def add (m : Map) (entity : Entity) : Except Exn (Map × Entity) :=
  let position := adjustPosition m entity.position
  match getCell m position with
  | Except.error e => Except.error e
  | Except.ok (position, cell) =>
    Except.ok
      ({ m with cells := updateCell (fun c => c.addEntity entity.ref) m.cells cell },
       { entity with position := position })

/-- Source: `Map::remove`. -/
def remove (m : Map) (entity : Entity) : Except Exn (Map × Entity) :=
  let position := adjustPosition m entity.position
  match getCell m position with
  | Except.error e => Except.error e
  | Except.ok (position, cell) =>
    Except.ok
      ({ m with cells := updateCell (fun c => c.removeEntity entity.ref) m.cells cell },
       { entity with position := position })

/-- A loaded map: the data model that `Map::load` establishes (for every size whose cell
total `(size / 16) * (size / 16)` does not wrap around in `size_t`, see `load_loaded`)
and that `Map::add` and `Map::remove` keep.  The row count is `size / 16`, the column
count equals it, and the cell sequence holds `rowCount * columnCount` cells; `size_` and
`cells_.size()` are `size_t` values. -/
def Map.Loaded (m : Map) : Prop :=
  m.size < SIZE_T_RANGE ∧ m.rowCount = m.size / CELL_SIZE ∧ m.columnCount = m.rowCount ∧
    m.cells.length = m.rowCount * m.columnCount ∧ m.cells.length < SIZE_T_RANGE

instance (m : Map) : Decidable m.Loaded := by
  unfold Map.Loaded
  infer_instance

/-- The `centerRow` that `Map::getNeighbouringCells` computes for a position. -/
def centerRow (m : Map) (mode : RoundingMode) (position : Position) : Nat :=
  min (toSizeT (nearbyint mode (adjustPosition m position).x)) m.size / CELL_SIZE

/-- The `centerColumn` that `Map::getNeighbouringCells` computes for a position. -/
def centerColumn (m : Map) (mode : RoundingMode) (position : Position) : Nat :=
  min (toSizeT (nearbyint mode (adjustPosition m position).z)) m.size / CELL_SIZE

/-! ## Command manager -/

/-- Model of the token loop of `boost::tokenizer<escaped_list_separator<char>>` built with
`escaped_list_separator<char>('\\', ' ', '\"')`, from the first character of a token on.
`inQuote` is `bInQuote` and `tok` the token built so far.  An unquoted separator ends the
token and leaves the flag `last_` set, so that a further (possibly empty) token follows;
reaching the end of the input ends the last token.  An escape character must be followed
by `n`, a quote, a separator or an escape character, otherwise `escaped_list_error` is
thrown. -/
def scanTokens : List Char → Bool → List Char → Except Exn (List (List Char))
  | [], _, tok => Except.ok [tok]
  | c :: rest, inQuote, tok =>
    if c = Char.ofNat 92 then
      match rest with
      | [] => Except.error Exn.escapedListError
      | d :: rest2 =>
        if d = 'n' then scanTokens rest2 inQuote (tok ++ [Char.ofNat 10])
        else if d = Char.ofNat 34 then scanTokens rest2 inQuote (tok ++ [d])
        else if d = ' ' then scanTokens rest2 inQuote (tok ++ [d])
        else if d = Char.ofNat 92 then scanTokens rest2 inQuote (tok ++ [d])
        else Except.error Exn.escapedListError
    else if c = ' ' then
      if inQuote = false then
        match scanTokens rest false [] with
        | Except.ok tokens => Except.ok (tok :: tokens)
        | Except.error e => Except.error e
      else scanTokens rest inQuote (tok ++ [c])
    else if c = Char.ofNat 34 then scanTokens rest (!inQuote) tok
    else scanTokens rest inQuote (tok ++ [c])

/-- The tokens that the loop `for (auto itr = token.begin(); itr != token.end(); ++itr)`
pushes onto `args`.  An empty text has no token at all. -/
def tokenize (text : List Char) : Except Exn (List (List Char)) :=
  match text with
  | [] => Except.ok []
  | c :: rest => scanTokens (c :: rest) false []

/-- What a call of a command handler can end with, besides returning. -/
inductive Raised where
  /-- An exception derived from `std::exception`, with its `what()`. -/
  | stdException (what : List Char)
  /-- Any other thrown object. -/
  | foreign
deriving DecidableEq, Repr

/-- Modelled from the spec: a `Command` (its header is not part of the sources) has an
identifier and an `execute(character, args)` action.  The action is a function on the
state `σ` it can reach through the character and may end by throwing. -/
structure Command (σ : Type) where
  identifier : List Char
  execute : σ → List (List Char) → σ × Option Raised

/-- The `commands_` map of `CommandManager`, keyed by identifier. -/
structure CommandManager (σ : Type) where
  commands : List Char → Option (Command σ)

/-- The observable outcome of `CommandManager::execute`: the state afterwards, the handler
calls made (key of the handler and the arguments passed) and the exception that leaves
the function, if any. -/
structure Execution (σ : Type) where
  character : σ
  invoked : List (List Char × List (List Char))
  raised : Option Exn

/-- Source: `CommandManager::execute`.  `*args.begin()` on an empty vector is undefined
behaviour, `substr(1)` throws `std::out_of_range` on an empty first token, and only
exceptions derived from `std::exception` are caught around the handler call. -/
def CommandManager.execute {σ : Type} (cm : CommandManager σ) (character : σ)
    (text : List Char) : Execution σ :=
  match tokenize text with
  | Except.error e => { character := character, invoked := [], raised := some e }
  | Except.ok [] =>
    { character := character, invoked := [], raised := some Exn.undefinedBehaviour }
  | Except.ok (first :: args) =>
    if first.length < 1 then
      { character := character, invoked := [], raised := some Exn.outOfRange }
    else
      let identifier := (first.drop 1).map Char.toLower
      match cm.commands identifier with
      | none => { character := character, invoked := [], raised := none }
      | some command =>
        match command.execute character args with
        | (after, none) =>
          { character := after, invoked := [(identifier, args)], raised := none }
        | (after, some (Raised.stdException _)) =>
          { character := after, invoked := [(identifier, args)], raised := none }
        | (after, some Raised.foreign) =>
          { character := after, invoked := [(identifier, args)],
            raised := some Exn.foreignException }

/-- Source: `CommandManager::registerCommand`: `commands_[command->identifier()] = command`. -/
def CommandManager.registerCommand {σ : Type} (cm : CommandManager σ) (command : Command σ) :
    CommandManager σ :=
  { commands := fun key => if key = command.identifier then some command else cm.commands key }

/-- A handler registered as "teleport" that stores the arguments it is called with. -/
def teleportCommand : Command (List (List Char)) :=
  { identifier := "teleport".toList, execute := fun _ args => (args, none) }

/-- A command manager that only knows `teleportCommand`. -/
def teleportOnly : CommandManager (List (List Char)) :=
  CommandManager.registerCommand { commands := fun _ => none } teleportCommand

/-- A handler registered as "Teleport", with an upper-case letter in its identifier, that
stores the arguments it is called with. -/
def capitalCommand : Command (List (List Char)) :=
  { identifier := "Teleport".toList, execute := fun _ args => (args, none) }

/-- A handler registered as "crash" that throws something that is not a `std::exception`. -/
def crashCommand : Command (List (List Char)) :=
  { identifier := "crash".toList, execute := fun state _ => (state, some Raised.foreign) }

/-! ## Session -/

/-- Model of `*reinterpret_cast<uint16_t*>(&buf_[offset])` on a little-endian host: the
16-bit value held by the two bytes at `offset`.  The buffer is a list of byte values;
a byte outside the list reads as 0. -/
def readUInt16 (buf : List Nat) (offset : Nat) : Nat :=
  buf.getD offset 0 % 256 + 256 * (buf.getD (offset + 1) 0 % 256)

/-- The calls `Session::handleRead` makes on the session. -/
inductive SessionCall where
  /-- The call `close()`. -/
  | close
  /-- The call `onRead(opcode, length, payload)`; the payload pointer is `&buf_[2]`. -/
  | onRead (opcode : Nat) (length : Nat)
  /-- The call `read()` that waits for more data. -/
  | read
deriving DecidableEq, Repr

/-- Model of `std::fill_n(buf_.begin(), count, 0)`. -/
def fillZero (buf : List Nat) (count : Nat) : List Nat :=
  List.replicate (min count buf.length) 0 ++ buf.drop count

/-- Source: `Session::handleRead`.  `error` is the truth value of the error code, `buf` the
content of `buf_` when the read completes.  Returns the calls made, in order, and the
buffer afterwards.  `length`, `opcode` and `bytesTransferred` are `size_t` values, and
`length - 2` is computed in `size_t`. -/
def handleRead (buf : List Nat) (error : Bool) (bytesTransferred : Nat) :
    List SessionCall × List Nat :=
  if error = true ∨ bytesTransferred ≤ 0 then ([SessionCall.close], buf)
  else
    let length := readUInt16 buf 0
    let opcode := readUInt16 buf 2
    if length ≠ bytesTransferred then ([SessionCall.close], buf)
    else
      ([SessionCall.onRead opcode (sizeSub length 2), SessionCall.read],
        fillZero buf bytesTransferred)

/-! ## Float positions

The definitions above take a position whose coordinates are finite numbers and convert
`size_` to `float` exactly.  The definitions of this section embed the same functions of
`Map.cpp` on every `float` coordinate, NaN and the infinities included, and round `size_`
and `size_ - 1` to `float`. -/

/-- A value of type `float`: NaN, an infinity, or a finite number given by its exact
value. -/
inductive Fp.Value where
  | nan
  | negInf
  | finite (value : ℚ)
  | posInf
deriving DecidableEq

/-- The comparison `v < q` of a `float` with a finite number; false when `v` is NaN. -/
def Fp.Value.lt (v : Fp.Value) (q : ℚ) : Bool :=
  match v with
  | Fp.Value.nan => false
  | Fp.Value.negInf => true
  | Fp.Value.finite a => decide (a < q)
  | Fp.Value.posInf => false

/-- The comparison `v >= q` of a `float` with a finite number; false when `v` is NaN. -/
def Fp.Value.ge (v : Fp.Value) (q : ℚ) : Bool :=
  match v with
  | Fp.Value.nan => false
  | Fp.Value.negInf => false
  | Fp.Value.finite a => decide (q ≤ a)
  | Fp.Value.posInf => true

/-- The number of low bits of a `size_t` value that do not fit a 24-bit significand: how
often the value is halved until it is below `2 ^ 24` (at most `fuel` times; 64 halvings
cover every `size_t`). -/
def excessBits : Nat → Nat → Nat
  | 0, _ => 0
  | fuel + 1, n => if n < 2 ^ 24 then 0 else excessBits fuel (n / 2) + 1

/-- Conversion of a `size_t` value to `float` (24-bit significand) under the rounding
direction in force; `toNearest` breaks ties towards the even significand.  Values below
`2 ^ 24` are exact under every direction. -/
def floatOfNat (mode : RoundingMode) (n : Nat) : ℚ :=
  if n < 2 ^ 24 then (n : ℚ)
  else
    let unit := 2 ^ excessBits 64 n
    let q := n / unit
    let r := n % unit
    let rounded :=
      match mode with
      | RoundingMode.toNearest =>
        if 2 * r < unit then q
        else if unit < 2 * r then q + 1
        else if q % 2 = 0 then q else q + 1
      | RoundingMode.towardZero => q
      | RoundingMode.downward => q
      | RoundingMode.upward => if r = 0 then q else q + 1
    ((rounded * unit : Nat) : ℚ)

/-- A `Position` with `float` coordinates. -/
structure Fp.Position where
  map : Nat
  x : Fp.Value
  y : Fp.Value
  z : Fp.Value
deriving DecidableEq

/-- A position with finite coordinates as a `float` position. -/
def Position.toFp (p : Position) : Fp.Position :=
  { map := p.map, x := Fp.Value.finite p.x, y := Fp.Value.finite p.y,
    z := Fp.Value.finite p.z }

/-- Source: `Map::adjustPosition`, on `float` coordinates.  Each comparison converts its
integer operand to `float`; `size_ - 1` is computed in `size_t` and converted when it is
stored.  `mode` is the rounding direction in force when the function is entered (the
default `toNearest`, or `towardZero` once `Map::getCellIndex` has run); it governs the
conversions of `size_` and `size_ - 1`. -/
def Fp.adjustPosition (mode : RoundingMode) (m : Map) (position : Fp.Position) :
    Fp.Position :=
  let position :=
    if position.x.lt 0 = true then { position with x := Fp.Value.finite 0 } else position
  let position :=
    if position.y.lt 0 = true then { position with y := Fp.Value.finite 0 } else position
  let position :=
    if position.z.lt 0 = true then { position with z := Fp.Value.finite 0 } else position
  let position :=
    if position.x.ge (floatOfNat mode m.size) = true then
      { position with x := Fp.Value.finite (floatOfNat mode (sizeSub m.size 1)) }
    else position
  let position :=
    if position.z.ge (floatOfNat mode m.size) = true then
      { position with z := Fp.Value.finite (floatOfNat mode (sizeSub m.size 1)) }
    else position
  position

/-- Model of `static_cast<size_t>(std::nearbyint(v))`.  The conversion is undefined
behaviour when `v` is NaN or infinite or when the rounded value is not in `[0, 2 ^ 64)`. -/
def Fp.toSizeT (mode : RoundingMode) (v : Fp.Value) : Except Exn Nat :=
  match v with
  | Fp.Value.finite a =>
    if 0 ≤ nearbyint mode a ∧ nearbyint mode a < (SIZE_T_RANGE : ℤ) then
      Except.ok (nearbyint mode a).toNat
    else Except.error Exn.undefinedBehaviour
  | _ => Except.error Exn.undefinedBehaviour

/-- Source: `Map::getCellIndex`, on `float` coordinates.  The position is adjusted under
the rounding direction `mode` in force at entry; the direction is then set to
`FE_TOWARDZERO` for the conversion of the coordinates. -/
def Fp.getCellIndex (mode : RoundingMode) (m : Map) (position : Fp.Position) :
    Except Exn (Fp.Position × Nat) :=
  let position := Fp.adjustPosition mode m position
  match Fp.toSizeT RoundingMode.towardZero position.x with
  | Except.error e => Except.error e
  | Except.ok convertedX =>
    match Fp.toSizeT RoundingMode.towardZero position.z with
    | Except.error e => Except.error e
    | Except.ok convertedZ =>
      let x := min convertedX m.size
      let z := min convertedZ m.size
      let row := x / CELL_SIZE
      let column := z / CELL_SIZE
      Except.ok (position, sizeAdd row (sizeMul column m.rowCount))

/-- Source: `Map::getCell`, on `float` coordinates. -/
def Fp.getCell (mode : RoundingMode) (m : Map) (position : Fp.Position) :
    Except Exn (Fp.Position × Nat) :=
  let position := Fp.adjustPosition mode m position
  match Fp.getCellIndex mode m position with
  | Except.error e => Except.error e
  | Except.ok r =>
    if r.2 < m.cells.length then Except.ok (r.1, r.2) else Except.error Exn.outOfRange

/-- An entity whose position has `float` coordinates. -/
structure Fp.Entity where
  ref : EntityRef
  position : Fp.Position
deriving DecidableEq

/-- Source: `Map::add`, on `float` coordinates, entered under the rounding direction
`mode`.  The call leaves the direction set to `FE_TOWARDZERO`. -/
def Fp.add (mode : RoundingMode) (m : Map) (entity : Fp.Entity) :
    Except Exn (Map × Fp.Entity) :=
  let position := Fp.adjustPosition mode m entity.position
  match Fp.getCell mode m position with
  | Except.error e => Except.error e
  | Except.ok (position, cell) =>
    Except.ok
      ({ m with cells := (updateCell (fun c => c.addEntity entity.ref) m.cells cell) },
       { entity with position := position })

/-- Source: `Map::remove`, on `float` coordinates, entered under the rounding direction
`mode`. -/
def Fp.remove (mode : RoundingMode) (m : Map) (entity : Fp.Entity) :
    Except Exn (Map × Fp.Entity) :=
  let position := Fp.adjustPosition mode m entity.position
  match Fp.getCell mode m position with
  | Except.error e => Except.error e
  | Except.ok (position, cell) =>
    Except.ok
      ({ m with cells := (updateCell (fun c => c.removeEntity entity.ref) m.cells cell) },
       { entity with position := position })

/-- What the first three tests of `Map::adjustPosition` do to one coordinate. -/
def Fp.floorZero (v : Fp.Value) : Fp.Value :=
  if v.lt 0 = true then Fp.Value.finite 0 else v

/-- What `Map::adjustPosition` does to an x or z coordinate: `bound` is `float(size_)` and
`top` is `float(size_ - 1)`. -/
def Fp.clamp (bound top : ℚ) (v : Fp.Value) : Fp.Value :=
  if (Fp.floorZero v).ge bound = true then Fp.Value.finite top else Fp.floorZero v

/-! ## Specification-side notions and example data -/

/-- Truncation toward zero of a rational number: the integer part the spec speaks of,
written with the truncating integer division of numerator by denominator. -/
def truncate (v : ℚ) : ℤ := Int.tdiv v.num (v.den : ℤ)

/-- The map that `Map::load` builds from the definition with id 0 and size 1024. -/
def map1024 : Map :=
  { id := 0, size := 1024, rowCount := 64, columnCount := 64,
    cells := List.replicate 4096 { entities := [] } }

/-- A map of size 16: a single cell. -/
def map16 : Map :=
  { id := 0, size := 16, rowCount := 1, columnCount := 1, cells := [{ entities := [] }] }

/-- A map of size 32 (2 rows, 2 columns) with a mob in cell 0 and an npc and a character
in cell 3. -/
def map32 : Map :=
  { id := 0, size := 32, rowCount := 2, columnCount := 2,
    cells := [{ entities := [{ type := EntityType.Mob, id := 1 }] }, { entities := [] },
      { entities := [] },
      { entities := [{ type := EntityType.Npc, id := 4 },
                     { type := EntityType.Character, id := 7 }] }] }

/-- The map that `Map::load` builds from the definition with id 0 and size 1000, which is
not a multiple of 16: 62 rows and columns. -/
def map1000 : Map :=
  { id := 0, size := 1000, rowCount := 62, columnCount := 62,
    cells := List.replicate 3844 { entities := [] } }

/-- The map that `Map::load` builds from the definition with id 0 and size `2 ^ 36`: the
cell total `2 ^ 32 * 2 ^ 32` wraps around to 0 in `size_t`. -/
def mapHuge : Map :=
  { id := 0, size := 2 ^ 36, rowCount := 2 ^ 32, columnCount := 2 ^ 32, cells := [] }

/-! ## Position clamping -/

theorem sizeSub_one {n : Nat} (h1 : 1 ≤ n) (h2 : n < 2 ^ 64) : sizeSub n 1 = n - 1 := by
  unfold sizeSub SIZE_T_RANGE
  omega

theorem adjustPosition_x (m : Map) (p : Position) :
    (adjustPosition m p).x =
      if (if p.x < 0 then 0 else p.x) ≥ (m.size : ℚ) then ((sizeSub m.size 1 : Nat) : ℚ)
      else (if p.x < 0 then 0 else p.x) := by
  unfold adjustPosition
  by_cases h1 : p.x < 0 <;> by_cases h2 : p.y < 0 <;> by_cases h3 : p.z < 0 <;>
    simp only [h1, h2, h3, if_true, if_false] <;>
    split_ifs <;> rfl

theorem adjustPosition_y (m : Map) (p : Position) :
    (adjustPosition m p).y = if p.y < 0 then 0 else p.y := by
  unfold adjustPosition
  by_cases h1 : p.x < 0 <;> by_cases h2 : p.y < 0 <;> by_cases h3 : p.z < 0 <;>
    simp only [h1, h2, h3, if_true, if_false] <;>
    split_ifs <;> rfl

theorem adjustPosition_z (m : Map) (p : Position) :
    (adjustPosition m p).z =
      if (if p.z < 0 then 0 else p.z) ≥ (m.size : ℚ) then ((sizeSub m.size 1 : Nat) : ℚ)
      else (if p.z < 0 then 0 else p.z) := by
  unfold adjustPosition
  by_cases h1 : p.x < 0 <;> by_cases h2 : p.y < 0 <;> by_cases h3 : p.z < 0 <;>
    simp only [h1, h2, h3, if_true, if_false] <;>
    split_ifs <;> rfl

theorem adjustPosition_map (m : Map) (p : Position) : (adjustPosition m p).map = p.map := by
  unfold adjustPosition
  by_cases h1 : p.x < 0 <;> by_cases h2 : p.y < 0 <;> by_cases h3 : p.z < 0 <;>
    simp only [h1, h2, h3, if_true, if_false] <;>
    split_ifs <;> rfl

/-- C1: on a map of size at least 1, `Map::adjustPosition` sets every coordinate (x, y, z)
that was negative to 0 and leaves every coordinate that was already in `[0, size)`
unchanged. -/
theorem adjustPosition_floor_and_keep (m : Map) (p : Position) (hsize : 1 ≤ m.size) :
    (p.x < 0 → (adjustPosition m p).x = 0) ∧
    (p.y < 0 → (adjustPosition m p).y = 0) ∧
    (p.z < 0 → (adjustPosition m p).z = 0) ∧
    (0 ≤ p.x → p.x < (m.size : ℚ) → (adjustPosition m p).x = p.x) ∧
    (0 ≤ p.y → p.y < (m.size : ℚ) → (adjustPosition m p).y = p.y) ∧
    (0 ≤ p.z → p.z < (m.size : ℚ) → (adjustPosition m p).z = p.z) := by
  have hpos : ¬ ((0 : ℚ) ≥ (m.size : ℚ)) := by
    have : (1 : ℚ) ≤ (m.size : ℚ) := by exact_mod_cast hsize
    intro h
    linarith
  refine ⟨?_, ?_, ?_, ?_, ?_, ?_⟩
  · intro h
    rw [adjustPosition_x, if_pos h, if_neg hpos]
  · intro h
    rw [adjustPosition_y, if_pos h]
  · intro h
    rw [adjustPosition_z, if_pos h, if_neg hpos]
  · intro h0 h1
    rw [adjustPosition_x, if_neg (not_lt.mpr h0), if_neg (not_le.mpr h1)]
  · intro h0 _
    rw [adjustPosition_y, if_neg (not_lt.mpr h0)]
  · intro h0 h1
    rw [adjustPosition_z, if_neg (not_lt.mpr h0), if_neg (not_le.mpr h1)]

/-- Witness for C1 on a map of size 16: x = -3 and y = -1 are floored to 0, z = 7 is kept. -/
theorem adjustPosition_floor_and_keep_witness :
    (1 : Nat) ≤ 16 ∧
    (adjustPosition map16
        { map := 0, x := -3, y := -1, z := 7 }).x = 0 ∧
    (adjustPosition map16
        { map := 0, x := -3, y := -1, z := 7 }).y = 0 ∧
    (adjustPosition map16
        { map := 0, x := -3, y := -1, z := 7 }).z = 7 :=
  have h := adjustPosition_floor_and_keep
    map16
    { map := 0, x := -3, y := -1, z := 7 } (by decide)
  ⟨by decide, h.1 (by decide), h.2.1 (by decide),
    h.2.2.2.2.2 (by decide) (by decide)⟩

/-- On a map of size 16 the position (0, 20, 0) with finite coordinates keeps y = 20 after
the adjustment: y is neither set to `size - 1 = 15` nor below the size afterwards. -/
theorem adjustPosition_y_not_clamped_above :
    map16.size = 16 ∧
    (adjustPosition map16 { map := 0, x := 0, y := 20, z := 0 }).y = 20 ∧
    (adjustPosition map16 { map := 0, x := 0, y := 20, z := 0 }).y ≠ ((map16.size - 1 : Nat) : ℚ) ∧
    ¬ (adjustPosition map16 { map := 0, x := 0, y := 20, z := 0 }).y < (map16.size : ℚ) := by
  decide

/-- Finite coordinates and exact conversion of the size: an x or z coordinate that was at
least the size becomes `size - 1`, afterwards x and z are at least 0 and below the size,
and y is only floored at 0. -/
theorem adjustPosition_clamps_x_z (m : Map) (p : Position) (hsize : 1 ≤ m.size)
    (hrange : m.size < SIZE_T_RANGE) :
    ((m.size : ℚ) ≤ p.x → (adjustPosition m p).x = ((m.size - 1 : Nat) : ℚ)) ∧
    ((m.size : ℚ) ≤ p.z → (adjustPosition m p).z = ((m.size - 1 : Nat) : ℚ)) ∧
    (0 ≤ (adjustPosition m p).x ∧ (adjustPosition m p).x < (m.size : ℚ)) ∧
    (0 ≤ (adjustPosition m p).z ∧ (adjustPosition m p).z < (m.size : ℚ)) ∧
    0 ≤ (adjustPosition m p).y ∧
    (0 ≤ p.y → (adjustPosition m p).y = p.y) := by
  have hsub : sizeSub m.size 1 = m.size - 1 := sizeSub_one hsize hrange
  have h1 : (1 : ℚ) ≤ (m.size : ℚ) := by exact_mod_cast hsize
  have hcast : ((m.size - 1 : Nat) : ℚ) = (m.size : ℚ) - 1 := by
    rw [Nat.cast_sub hsize]
    simp
  rw [adjustPosition_x, adjustPosition_y, adjustPosition_z, hsub, hcast]
  refine ⟨?_, ?_, ⟨?_, ?_⟩, ⟨?_, ?_⟩, ?_, ?_⟩
  · intro h
    have h0 : ¬ p.x < 0 := by linarith
    rw [if_neg h0, if_pos h]
  · intro h
    have h0 : ¬ p.z < 0 := by linarith
    rw [if_neg h0, if_pos h]
  · split_ifs <;> linarith
  · split_ifs <;> linarith
  · split_ifs <;> linarith
  · split_ifs <;> linarith
  · split_ifs <;> linarith
  · intro h
    rw [if_neg (not_lt.mpr h)]

/-- On a map of size 16 the finite position (20, 20, 16) becomes (15, 20, 15). -/
theorem adjustPosition_clamps_x_z_witness :
    (1 : Nat) ≤ 16 ∧ (16 : Nat) < SIZE_T_RANGE ∧
    (adjustPosition map16
        { map := 0, x := 20, y := 20, z := 16 }).x = 15 ∧
    (adjustPosition map16
        { map := 0, x := 20, y := 20, z := 16 }).z = 15 ∧
    (adjustPosition map16
        { map := 0, x := 20, y := 20, z := 16 }).y = 20 :=
  have h := adjustPosition_clamps_x_z
    map16
    { map := 0, x := 20, y := 20, z := 16 } (by decide) (by decide)
  ⟨by decide, by decide, h.1 (by decide), h.2.1 (by decide), h.2.2.2.2.2 (by decide)⟩

/-! ## Cell index -/

theorem position_eq (a b : Position) (h1 : a.map = b.map) (h2 : a.x = b.x) (h3 : a.y = b.y)
    (h4 : a.z = b.z) : a = b := by
  cases a
  cases b
  simp only [Position.mk.injEq]
  exact ⟨h1, h2, h3, h4⟩

theorem sizeSub_nonneg_cast (n : Nat) : (0 : ℚ) ≤ ((sizeSub n 1 : Nat) : ℚ) :=
  Nat.cast_nonneg _

theorem adjustPosition_idem (m : Map) (p : Position) :
    adjustPosition m (adjustPosition m p) = adjustPosition m p := by
  have hs := sizeSub_nonneg_cast m.size
  apply position_eq
  · rw [adjustPosition_map]
  · rw [adjustPosition_x m (adjustPosition m p), adjustPosition_x m p]
    generalize ((sizeSub m.size 1 : Nat) : ℚ) = top at hs ⊢
    split_ifs <;> linarith
  · rw [adjustPosition_y m (adjustPosition m p), adjustPosition_y m p]
    split_ifs <;> linarith
  · rw [adjustPosition_z m (adjustPosition m p), adjustPosition_z m p]
    generalize ((sizeSub m.size 1 : Nat) : ℚ) = top at hs ⊢
    split_ifs <;> linarith

theorem adjustPosition_x_range (m : Map) (p : Position) (hsize : 1 ≤ m.size)
    (hrange : m.size < SIZE_T_RANGE) :
    0 ≤ (adjustPosition m p).x ∧ (adjustPosition m p).x < (m.size : ℚ) := by
  have hsub : sizeSub m.size 1 = m.size - 1 := sizeSub_one hsize hrange
  have h1 : (1 : ℚ) ≤ (m.size : ℚ) := by exact_mod_cast hsize
  have hcast : ((m.size - 1 : Nat) : ℚ) = (m.size : ℚ) - 1 := by
    rw [Nat.cast_sub hsize]
    simp
  rw [adjustPosition_x, hsub, hcast]
  constructor <;> split_ifs <;> linarith

theorem adjustPosition_z_range (m : Map) (p : Position) (hsize : 1 ≤ m.size)
    (hrange : m.size < SIZE_T_RANGE) :
    0 ≤ (adjustPosition m p).z ∧ (adjustPosition m p).z < (m.size : ℚ) := by
  have hsub : sizeSub m.size 1 = m.size - 1 := sizeSub_one hsize hrange
  have h1 : (1 : ℚ) ≤ (m.size : ℚ) := by exact_mod_cast hsize
  have hcast : ((m.size - 1 : Nat) : ℚ) = (m.size : ℚ) - 1 := by
    rw [Nat.cast_sub hsize]
    simp
  rw [adjustPosition_z, hsub, hcast]
  constructor <;> split_ifs <;> linarith

theorem toSizeT_of_range (i : ℤ) (h0 : 0 ≤ i) (h1 : i < (SIZE_T_RANGE : ℤ)) :
    toSizeT i = i.toNat := by
  unfold toSizeT
  rw [Int.emod_eq_of_lt h0 h1]

/-- Conversion of an in-range coordinate under `FE_TOWARDZERO`: the floor, which stays
below the map size, so the `std::min` with `size_` changes nothing. -/
theorem cellCoord_towardZero (size : Nat) (v : ℚ) (h0 : 0 ≤ v) (h1 : v < (size : ℚ))
    (hrange : size < SIZE_T_RANGE) :
    min (toSizeT (nearbyint RoundingMode.towardZero v)) size = ⌊v⌋.toNat ∧
      ⌊v⌋.toNat < size := by
  have hf0 : 0 ≤ ⌊v⌋ := Int.floor_nonneg.mpr h0
  have hf1 : ⌊v⌋ < (size : ℤ) := by
    rw [Int.floor_lt]
    exact_mod_cast h1
  have hlt : ⌊v⌋.toNat < size := (Int.toNat_lt hf0).mpr hf1
  have hr : ⌊v⌋ < (SIZE_T_RANGE : ℤ) := by
    have : ((size : ℤ)) < (SIZE_T_RANGE : ℤ) := by exact_mod_cast hrange
    omega
  have hn : nearbyint RoundingMode.towardZero v = ⌊v⌋ := by
    simp only [nearbyint, if_pos h0]
  rw [hn, toSizeT_of_range _ hf0 hr]
  exact ⟨min_eq_left (le_of_lt hlt), hlt⟩

theorem cellIndex_no_wrap (row column k : Nat) (hr : row ≤ k) (hc : column ≤ k)
    (hk : k * k < SIZE_T_RANGE) : sizeAdd row (sizeMul column k) = row + column * k := by
  unfold SIZE_T_RANGE at hk
  have h1 : column * k ≤ k * k := Nat.mul_le_mul_right k hc
  have h2 : k < 2 ^ 32 := by
    by_contra hge
    have h3 : 2 ^ 32 * 2 ^ 32 ≤ k * k := Nat.mul_le_mul (not_lt.mp hge) (not_lt.mp hge)
    omega
  have h4 : k * k ≤ (2 ^ 32 - 1) * k := Nat.mul_le_mul_right k (by omega)
  unfold sizeAdd sizeMul SIZE_T_RANGE
  rw [Nat.mod_eq_of_lt (a := column * k) (by omega), Nat.mod_eq_of_lt (by omega)]

theorem cellIndex_lt (row column k : Nat) (hr : row < k) (hc : column < k) :
    row + column * k < k * k := by
  have h1 : (column + 1) * k ≤ k * k := Nat.mul_le_mul_right k hc
  rw [Nat.add_mul, Nat.one_mul] at h1
  omega

theorem getCellIndex_fst (m : Map) (p : Position) : (getCellIndex m p).1 = adjustPosition m p :=
  rfl

theorem getCellIndex_adjust (m : Map) (p : Position) :
    getCellIndex m (adjustPosition m p) = getCellIndex m p := by
  unfold getCellIndex
  rw [adjustPosition_idem]

theorem getCellIndex_snd (m : Map) (p : Position) (hm : m.Loaded) (hsize : 1 ≤ m.size) :
    (getCellIndex m p).2 =
      ⌊(adjustPosition m p).x⌋.toNat / CELL_SIZE +
        ⌊(adjustPosition m p).z⌋.toNat / CELL_SIZE * m.rowCount ∧
    ⌊(adjustPosition m p).x⌋.toNat < m.size ∧ ⌊(adjustPosition m p).z⌋.toNat < m.size := by
  obtain ⟨hrange, hrow, hcol, hlen, htotal⟩ := hm
  obtain ⟨hx0, hx1⟩ := adjustPosition_x_range m p hsize hrange
  obtain ⟨hz0, hz1⟩ := adjustPosition_z_range m p hsize hrange
  obtain ⟨ex, lx⟩ := cellCoord_towardZero m.size _ hx0 hx1 hrange
  obtain ⟨ez, lz⟩ := cellCoord_towardZero m.size _ hz0 hz1 hrange
  refine ⟨?_, lx, lz⟩
  show sizeAdd (min _ _ / CELL_SIZE) (sizeMul (min _ _ / CELL_SIZE) m.rowCount) = _
  rw [ex, ez]
  apply cellIndex_no_wrap
  · rw [hrow]
    exact Nat.div_le_div_right (le_of_lt lx)
  · rw [hrow]
    exact Nat.div_le_div_right (le_of_lt lz)
  · rw [hlen, hcol] at htotal
    exact htotal

theorem ptreeGet_ok (field : Option Nat) (range v : Nat)
    (h : ptreeGet field range = Except.ok v) : field = some v ∧ v < range := by
  unfold ptreeGet at h
  cases field with
  | none => exact absurd h (by simp)
  | some w =>
    simp only at h
    split_ifs at h with hw
    have hv : w = v := Except.ok.inj h
    subst hv
    exact ⟨rfl, hw⟩

theorem load_ok (tree : MapDefinition) (m : Map) (h : load tree = Except.ok m) :
    tree.size = some m.size ∧ m.size < SIZE_T_RANGE ∧ m.rowCount = m.size / CELL_SIZE ∧
      m.columnCount = m.rowCount ∧
      m.cells = List.replicate (sizeMul m.rowCount m.columnCount) { entities := [] } ∧
      sizeMul m.rowCount m.columnCount ≤ INT_MAX := by
  unfold load at h
  cases hid : ptreeGet tree.id UINT16_RANGE with
  | error e =>
    rw [hid] at h
    exact absurd h (by simp)
  | ok id =>
    cases hsz : ptreeGet tree.size SIZE_T_RANGE with
    | error e =>
      rw [hid, hsz] at h
      exact absurd h (by simp)
    | ok size =>
      rw [hid, hsz] at h
      simp only at h
      split_ifs at h with htotal
      have hm : _ = m := Except.ok.inj h
      obtain ⟨h1, h2⟩ := ptreeGet_ok _ _ _ hsz
      subst hm
      exact ⟨h1, h2, rfl, rfl, rfl, htotal⟩

theorem load_loaded (tree : MapDefinition) (m : Map) (h : load tree = Except.ok m)
    (hfit : m.size / CELL_SIZE * (m.size / CELL_SIZE) < SIZE_T_RANGE) : m.Loaded := by
  obtain ⟨_, hlt, hrow, hcol, hcells, _⟩ := load_ok tree m h
  have hmul : sizeMul m.rowCount m.columnCount = m.rowCount * m.columnCount := by
    rw [hcol, hrow]
    exact Nat.mod_eq_of_lt hfit
  have hlen : m.cells.length = m.rowCount * m.columnCount := by
    rw [hcells, List.length_replicate, hmul]
  refine ⟨hlt, hrow, hcol, hlen, ?_⟩
  rw [hlen, hcol, hrow]
  exact hfit

theorem load_map1024 : load { id := some 0, size := some 1024 } = Except.ok map1024 := rfl

theorem map1024_cells_length : map1024.cells.length = 4096 := List.length_replicate _ _

theorem map1024_loaded : map1024.Loaded := load_loaded _ _ load_map1024 (by decide)

theorem rowCount_mul_cell (m : Map) (hm : m.Loaded) (hdiv : CELL_SIZE ∣ m.size) :
    m.size = CELL_SIZE * m.rowCount := by
  obtain ⟨k, hk⟩ := hdiv
  rw [hm.2.1, hk, Nat.mul_div_cancel_left k (by decide)]

theorem getCellIndex_lt_length (m : Map) (p : Position) (hm : m.Loaded) (hpos : 0 < m.size)
    (hdiv : CELL_SIZE ∣ m.size) : (getCellIndex m p).2 < m.cells.length := by
  obtain ⟨hidx, lx, lz⟩ := getCellIndex_snd m p hm hpos
  have hk := rowCount_mul_cell m hm hdiv
  rw [hm.2.2.2.1, hidx, hm.2.2.1]
  apply cellIndex_lt
  · unfold CELL_SIZE at hk ⊢
    omega
  · unfold CELL_SIZE at hk ⊢
    omega

theorem getCell_of_lt (m : Map) (p : Position) (h : (getCellIndex m p).2 < m.cells.length) :
    getCell m p = Except.ok (adjustPosition m p, (getCellIndex m p).2) := by
  unfold getCell
  simp only [getCellIndex_adjust, if_pos h, getCellIndex_fst]

/-- Finite coordinates: on a loaded map whose size is a positive multiple of the cell
size, the cell index of a position is below `rowCount * columnCount`, which is the number
of cells, and the cell lookup returns the cell with that index. -/
theorem getCellIndex_in_range (m : Map) (p : Position) (hm : m.Loaded) (hpos : 0 < m.size)
    (hdiv : CELL_SIZE ∣ m.size) :
    (getCellIndex m p).2 < m.rowCount * m.columnCount ∧
    (getCellIndex m p).2 < m.cells.length ∧
    getCell m p = Except.ok (adjustPosition m p, (getCellIndex m p).2) := by
  have hlt : (getCellIndex m p).2 < m.cells.length :=
    getCellIndex_lt_length m p hm hpos hdiv
  have hlen : m.cells.length = m.rowCount * m.columnCount := hm.2.2.2.1
  refine ⟨?_, hlt, ?_⟩
  · rw [← hlen]
    exact hlt
  · unfold getCell
    simp only [getCellIndex_adjust, if_pos hlt, getCellIndex_fst]

/-- On the map loaded with size 1024 the finite position (1030, 2, 1030) lies in the last
cell (index 4095 of 4096). -/
theorem getCellIndex_in_range_witness :
    map1024.Loaded ∧ 0 < map1024.size ∧ CELL_SIZE ∣ map1024.size ∧
    (getCellIndex map1024 { map := 0, x := 1030, y := 2, z := 1030 }).2 = 4095 ∧
    (getCellIndex map1024 { map := 0, x := 1030, y := 2, z := 1030 }).2 <
      map1024.rowCount * map1024.columnCount ∧
    getCell map1024 { map := 0, x := 1030, y := 2, z := 1030 } =
      Except.ok (adjustPosition map1024 { map := 0, x := 1030, y := 2, z := 1030 },
        (getCellIndex map1024 { map := 0, x := 1030, y := 2, z := 1030 }).2) :=
  have h := getCellIndex_in_range map1024 { map := 0, x := 1030, y := 2, z := 1030 }
    map1024_loaded (by decide) (by decide)
  ⟨map1024_loaded, by decide, by decide, by decide, h.1, h.2.2⟩

theorem truncate_of_nonneg (v : ℚ) (h : 0 ≤ v) : truncate v = ⌊v⌋ := by
  unfold truncate
  rw [Rat.floor_def, Int.tdiv_eq_ediv (Rat.num_nonneg.mpr h) (Int.natCast_nonneg _)]

/-- C4: on a loaded map of size at least 1, `Map::getCellIndex` equals
`trunc(x') / 16 + trunc(z') / 16 * rowCount` with x', z' the clamped coordinates, trunc
the truncation toward zero, integer divisions and `rowCount = size / 16`; and on the map
loaded with size 1024 (64 rows, 64 columns) the position (1025, 5, 500) is clamped to
(1023, 5, 500) and has cell index 2047. -/
theorem getCellIndex_formula (m : Map) (p : Position) (hm : m.Loaded) (hsize : 1 ≤ m.size) :
    (((getCellIndex m p).2 : Nat) : ℤ) =
        truncate (adjustPosition m p).x / 16 +
          truncate (adjustPosition m p).z / 16 * (m.rowCount : ℤ) ∧
    m.rowCount = m.size / 16 ∧
    (∀ m0 : Map, load { id := some 0, size := some 1024 } = Except.ok m0 →
      m0.rowCount = 64 ∧ m0.columnCount = 64 ∧
      adjustPosition m0 { map := 0, x := 1025, y := 5, z := 500 } =
        { map := 0, x := 1023, y := 5, z := 500 } ∧
      getCellIndex m0 { map := 0, x := 1025, y := 5, z := 500 } =
        ({ map := 0, x := 1023, y := 5, z := 500 }, 2047)) := by
  obtain ⟨hidx, _, _⟩ := getCellIndex_snd m p hm hsize
  obtain ⟨hx0, _⟩ := adjustPosition_x_range m p hsize hm.1
  obtain ⟨hz0, _⟩ := adjustPosition_z_range m p hsize hm.1
  refine ⟨?_, hm.2.1, ?_⟩
  · rw [hidx, truncate_of_nonneg _ hx0, truncate_of_nonneg _ hz0]
    have hfx : 0 ≤ ⌊(adjustPosition m p).x⌋ := Int.floor_nonneg.mpr hx0
    have hfz : 0 ≤ ⌊(adjustPosition m p).z⌋ := Int.floor_nonneg.mpr hz0
    unfold CELL_SIZE
    push_cast
    rw [Int.toNat_of_nonneg hfx, Int.toNat_of_nonneg hfz]
  · intro m0 h0
    have hm0 : map1024 = m0 := Except.ok.inj (load_map1024.symm.trans h0)
    subst hm0
    exact ⟨rfl, rfl, by decide, by decide⟩

/-- Witness for C4: the map of size 16 and the position (20, 1, -4), which is clamped to
(15, 1, 0) and lies in cell 0. -/
theorem getCellIndex_formula_witness :
    map16.Loaded ∧ 1 ≤ map16.size ∧
    (((getCellIndex map16 { map := 0, x := 20, y := 1, z := -4 }).2 : Nat) : ℤ) =
      truncate (adjustPosition map16 { map := 0, x := 20, y := 1, z := -4 }).x / 16 +
        truncate (adjustPosition map16 { map := 0, x := 20, y := 1, z := -4 }).z / 16 *
          (map16.rowCount : ℤ) ∧
    (getCellIndex map16 { map := 0, x := 20, y := 1, z := -4 }).2 = 0 :=
  ⟨by decide, by decide,
    (getCellIndex_formula map16 { map := 0, x := 20, y := 1, z := -4 } (by decide)
      (by decide)).1,
    by decide⟩

/-! ## Neighbourhood -/

theorem mem_forRange (first limit v : Nat) : v ∈ forRange first limit ↔ first ≤ v ∧ v < limit := by
  unfold forRange
  rw [List.mem_range'_1]
  omega

theorem mem_getNeighbouringCells (m : Map) (mode : RoundingMode) (p : Position) (id : Nat) :
    id ∈ (getNeighbouringCells m mode p).2 ↔
      ∃ row column : Nat,
        (sizeSub (centerRow m mode p) OBSERVABLE_CELL_RADIUS ≤ row ∧
          row < sizeAdd (centerRow m mode p) OBSERVABLE_CELL_RADIUS) ∧
        (sizeSub (centerColumn m mode p) OBSERVABLE_CELL_RADIUS ≤ column ∧
          column < sizeAdd (centerColumn m mode p) OBSERVABLE_CELL_RADIUS) ∧
        id = sizeAdd row (sizeMul column m.rowCount) ∧ id < m.cells.length := by
  unfold getNeighbouringCells
  simp only [List.mem_flatMap, mem_forRange]
  constructor
  · rintro ⟨row, hrow, column, hcolumn, hmem⟩
    split_ifs at hmem with hid
    · rw [List.mem_singleton] at hmem
      exact ⟨row, column, hrow, hcolumn, hmem, hmem ▸ hid.2⟩
    · exact absurd hmem (List.not_mem_nil _)
  · rintro ⟨row, column, hrow, hcolumn, hid, hlt⟩
    refine ⟨row, hrow, column, hcolumn, ?_⟩
    rw [if_pos ⟨Nat.zero_le _, hid ▸ hlt⟩, List.mem_singleton]
    exact hid

theorem nearbyint_intCast (mode : RoundingMode) (n : ℤ) : nearbyint mode (n : ℚ) = n := by
  cases mode <;> simp [nearbyint]

theorem centerRow_of_int (m : Map) (mode : RoundingMode) (p : Position) (n : ℤ)
    (h : (adjustPosition m p).x = (n : ℚ)) :
    centerRow m mode p = min (toSizeT n) m.size / CELL_SIZE := by
  unfold centerRow
  rw [h, nearbyint_intCast]

theorem centerColumn_of_int (m : Map) (mode : RoundingMode) (p : Position) (n : ℤ)
    (h : (adjustPosition m p).z = (n : ℚ)) :
    centerColumn m mode p = min (toSizeT n) m.size / CELL_SIZE := by
  unfold centerColumn
  rw [h, nearbyint_intCast]

/-- When the center row is below the radius, `centerRow - OBSERVABLE_CELL_RADIUS` wraps
around in `size_t`, the row loop does not run and no cell is returned. -/
theorem getNeighbouringCells_low_row (m : Map) (mode : RoundingMode) (p : Position)
    (h : centerRow m mode p < OBSERVABLE_CELL_RADIUS) :
    (getNeighbouringCells m mode p).2 = [] := by
  rw [List.eq_nil_iff_forall_not_mem]
  intro id hmem
  obtain ⟨row, _, ⟨h1, h2⟩, _⟩ := (mem_getNeighbouringCells m mode p id).mp hmem
  unfold sizeSub sizeAdd SIZE_T_RANGE OBSERVABLE_CELL_RADIUS at *
  omega

/-- When the center column is below the radius the column loop never runs. -/
theorem getNeighbouringCells_low_column (m : Map) (mode : RoundingMode) (p : Position)
    (h : centerColumn m mode p < OBSERVABLE_CELL_RADIUS) :
    (getNeighbouringCells m mode p).2 = [] := by
  rw [List.eq_nil_iff_forall_not_mem]
  intro id hmem
  obtain ⟨_, column, _, ⟨h1, h2⟩, _⟩ := (mem_getNeighbouringCells m mode p id).mp hmem
  unfold sizeSub sizeAdd SIZE_T_RANGE OBSERVABLE_CELL_RADIUS at *
  omega

/-- C5 fails on the code: on the map loaded with size 1024, under every rounding
direction, `Map::getNeighbouringCells` of the position (0, 0, 0) returns no cell at all,
although `Map::getCell` of that position is cell 0. -/
theorem getNeighbouringCells_origin_empty (mode : RoundingMode) :
    load { id := some 0, size := some 1024 } = Except.ok map1024 ∧
    getCell map1024 { map := 0, x := 0, y := 0, z := 0 } =
      Except.ok ({ map := 0, x := 0, y := 0, z := 0 }, 0) ∧
    (getNeighbouringCells map1024 mode { map := 0, x := 0, y := 0, z := 0 }).2 = [] := by
  refine ⟨load_map1024, ?_, ?_⟩
  · rw [getCell_of_lt map1024 _
      (getCellIndex_lt_length map1024 _ map1024_loaded (by decide) (by decide))]
    exact congrArg Except.ok (by decide)
  · apply getNeighbouringCells_low_row
    rw [centerRow_of_int map1024 mode _ 0 (by decide)]
    decide

/-- C6 fails on the code: on the map loaded with size 1024, under every rounding
direction, the position (800, 0, 800) has center cell (50, 50); the cell in row 53 and
column 50 exists (index 3253 of 4096) and is within the radius 3, yet
`Map::getNeighbouringCells` does not return it: the loops stop before `center + 3`. -/
theorem getNeighbouringCells_misses_far_row (mode : RoundingMode) :
    centerRow map1024 mode { map := 0, x := 800, y := 0, z := 800 } = 50 ∧
    centerColumn map1024 mode { map := 0, x := 800, y := 0, z := 800 } = 50 ∧
    (getCellIndex map1024 { map := 0, x := 800, y := 0, z := 800 }).2 =
      50 + 50 * map1024.rowCount ∧
    53 + 50 * map1024.rowCount = 3253 ∧ 3253 < map1024.cells.length ∧
    3253 ∉ (getNeighbouringCells map1024 mode { map := 0, x := 800, y := 0, z := 800 }).2 := by
  have hr : centerRow map1024 mode { map := 0, x := 800, y := 0, z := 800 } = 50 := by
    rw [centerRow_of_int map1024 mode _ 800 (by decide)]
    decide
  have hc : centerColumn map1024 mode { map := 0, x := 800, y := 0, z := 800 } = 50 := by
    rw [centerColumn_of_int map1024 mode _ 800 (by decide)]
    decide
  refine ⟨hr, hc, by decide, by decide, ?_, ?_⟩
  · rw [map1024_cells_length]
    decide
  · intro hmem
    obtain ⟨row, column, ⟨_, h2⟩, ⟨h3, h4⟩, hid, _⟩ :=
      (mem_getNeighbouringCells map1024 mode _ 3253).mp hmem
    rw [hr] at h2
    rw [hc] at h3 h4
    have hrows : map1024.rowCount = 64 := rfl
    rw [hrows] at hid
    unfold sizeSub sizeAdd sizeMul SIZE_T_RANGE OBSERVABLE_CELL_RADIUS at *
    omega

/-! ## Loading -/

/-- C7 as stated fails: the size 1000 is not divisible by 16, yet `Map::load` succeeds and
builds a grid of 62 rows and 62 columns with 3844 empty cells. -/
theorem load_accepts_indivisible_size :
    ¬ (16 ∣ 1000) ∧
    load { id := some 0, size := some 1000 } =
      Except.ok { id := 0, size := 1000, rowCount := 62, columnCount := 62,
                  cells := List.replicate 3844 { entities := [] } } :=
  ⟨by decide, rfl⟩

/-- C7 (amended): `Map::load` makes no divisibility check and raises no malformed-data
error.  For every definition that has an id and a size, whether or not 16 divides the
size, it succeeds as long as the cell total fits the `int` loop counter, building
`rowCount * columnCount` empty cells with `rowCount = columnCount = size / 16` (integer
division). -/
theorem load_succeeds (id size : Nat) (hid : id < UINT16_RANGE) (hsize : size < SIZE_T_RANGE)
    (hfit : size / 16 * (size / 16) ≤ INT_MAX) :
    load { id := some id, size := some size } =
      Except.ok { id := id, size := size, rowCount := size / 16, columnCount := size / 16,
                  cells := List.replicate (size / 16 * (size / 16)) { entities := [] } } := by
  have hmul : sizeMul (size / CELL_SIZE) (size / CELL_SIZE) = size / 16 * (size / 16) := by
    unfold sizeMul SIZE_T_RANGE CELL_SIZE
    unfold INT_MAX at hfit
    exact Nat.mod_eq_of_lt (by omega)
  unfold load ptreeGet
  simp only [if_pos hid, if_pos hsize, hmul, if_pos hfit]
  rfl

/-- Witness for C7 (amended): size 2040, not a multiple of 16, gives 127 rows and columns
and 16129 empty cells. -/
theorem load_succeeds_witness :
    (0 : Nat) < UINT16_RANGE ∧ (2040 : Nat) < SIZE_T_RANGE ∧
    (2040 : Nat) / 16 * (2040 / 16) ≤ INT_MAX ∧ ¬ (16 ∣ 2040) ∧
    load { id := some 0, size := some 2040 } =
      Except.ok { id := 0, size := 2040, rowCount := 127, columnCount := 127,
                  cells := List.replicate 16129 { entities := [] } } :=
  ⟨by decide, by decide, by decide, by decide,
    load_succeeds 0 2040 (by decide) (by decide) (by decide)⟩

/-! ## Adding and removing entities -/

theorem updateCell_length (f : MapCell → MapCell) (cells : List MapCell) (n : Nat) :
    (updateCell f cells n).length = cells.length := by
  induction cells generalizing n with
  | nil => rfl
  | cons c cs ih =>
    cases n with
    | zero => rfl
    | succ k => simp only [updateCell, List.length_cons, ih]

theorem updateCell_twice (f g : MapCell → MapCell) (cells : List MapCell) (n : Nat) :
    updateCell g (updateCell f cells n) n = updateCell (fun c => g (f c)) cells n := by
  induction cells generalizing n with
  | nil => rfl
  | cons c cs ih =>
    cases n with
    | zero => rfl
    | succ k => simp only [updateCell, ih]

theorem updateCell_fixed (f : MapCell → MapCell) (cells : List MapCell) (n : Nat)
    (h : ∀ c ∈ cells, f c = c) : updateCell f cells n = cells := by
  induction cells generalizing n with
  | nil => rfl
  | cons c cs ih =>
    cases n with
    | zero => simp only [updateCell, h c (List.mem_cons_self c cs)]
    | succ k =>
      simp only [updateCell, ih k (fun d hd => h d (List.mem_cons_of_mem c hd))]

theorem updateCell_get (f : MapCell → MapCell) (cells : List MapCell) (n : Nat)
    (h : n < cells.length) :
    (updateCell f cells n).get? n = (cells.get? n).map f := by
  induction cells generalizing n with
  | nil => exact absurd h (Nat.not_lt_zero _)
  | cons c cs ih =>
    cases n with
    | zero => rfl
    | succ k =>
      simp only [updateCell, List.get?_cons_succ]
      exact ih k (Nat.lt_of_succ_lt_succ h)

theorem removeEntity_addEntity (cell : MapCell) (r : EntityRef) (h : r ∉ cell.entities) :
    (cell.addEntity r).removeEntity r = cell := by
  cases cell with
  | mk entities =>
    simp only [MapCell.addEntity, MapCell.removeEntity, MapCell.mk.injEq]
    rw [List.filter_append]
    have h1 : List.filter (fun x => decide (x ≠ r)) [r] = [] := by simp
    have h2 : List.filter (fun x => decide (x ≠ r)) entities = entities := by
      rw [List.filter_eq_self]
      intro a ha
      have : a ≠ r := fun hab => h (hab ▸ ha)
      simpa using this
    rw [h1, h2, List.append_nil]

theorem adjustPosition_congr (m m1 : Map) (p : Position) (hs : m1.size = m.size) :
    adjustPosition m1 p = adjustPosition m p := by
  unfold adjustPosition
  rw [hs]

theorem getCell_congr (m m1 : Map) (p : Position) (hs : m1.size = m.size)
    (hr : m1.rowCount = m.rowCount) (hl : m1.cells.length = m.cells.length) :
    getCell m1 p = getCell m p := by
  have h : ∀ q : Position, adjustPosition m1 q = adjustPosition m q :=
    fun q => adjustPosition_congr m m1 q hs
  unfold getCell getCellIndex
  simp only [h, hs, hr, hl]

theorem add_of_getCell (m : Map) (e : Entity) (q : Position) (cell : Nat)
    (h : getCell m (adjustPosition m e.position) = Except.ok (q, cell)) :
    add m e = Except.ok
      ({ m with cells := (updateCell (fun c => c.addEntity e.ref) m.cells cell) },
       { e with position := q }) := by
  unfold add
  simp only [h]

theorem remove_of_getCell (m : Map) (e : Entity) (q : Position) (cell : Nat)
    (h : getCell m (adjustPosition m e.position) = Except.ok (q, cell)) :
    remove m e = Except.ok
      ({ m with cells := (updateCell (fun c => c.removeEntity e.ref) m.cells cell) },
       { e with position := q }) := by
  unfold remove
  simp only [h]

theorem add_loaded (m m1 : Map) (e e1 : Entity) (hm : m.Loaded)
    (h : add m e = Except.ok (m1, e1)) : m1.Loaded := by
  unfold add at h
  cases hcell : getCell m (adjustPosition m e.position) with
  | error err =>
    simp only [hcell] at h
    exact absurd h (by simp)
  | ok r =>
    obtain ⟨q, cell⟩ := r
    simp only [hcell] at h
    have h1 := congrArg Prod.fst (Except.ok.inj h)
    simp only at h1
    subst h1
    unfold Map.Loaded
    simp only [updateCell_length]
    exact hm

theorem remove_loaded (m m1 : Map) (e e1 : Entity) (hm : m.Loaded)
    (h : remove m e = Except.ok (m1, e1)) : m1.Loaded := by
  unfold remove at h
  cases hcell : getCell m (adjustPosition m e.position) with
  | error err =>
    simp only [hcell] at h
    exact absurd h (by simp)
  | ok r =>
    obtain ⟨q, cell⟩ := r
    simp only [hcell] at h
    have h1 := congrArg Prod.fst (Except.ok.inj h)
    simp only at h1
    subst h1
    unfold Map.Loaded
    simp only [updateCell_length]
    exact hm

/-- Finite coordinates: on a loaded map whose size is a positive multiple of 16, for an
entity that no cell holds, adding and then removing it (position untouched in between)
both succeed, resolve to the same cell, the entity is in that cell in between, and
afterwards the map has the same cells, each with the same entities as before. -/
theorem add_remove_restores (m : Map) (e : Entity) (hm : m.Loaded) (hpos : 0 < m.size)
    (hdiv : CELL_SIZE ∣ m.size) (hfresh : ∀ c ∈ m.cells, e.ref ∉ c.entities) :
    ∃ (m1 : Map) (e1 : Entity) (m2 : Map) (e2 : Entity) (cell : Nat),
      add m e = Except.ok (m1, e1) ∧ remove m1 e1 = Except.ok (m2, e2) ∧
      getCell m e.position = Except.ok (e1.position, cell) ∧
      getCell m1 e1.position = Except.ok (e2.position, cell) ∧
      e.ref ∈ m1.entitiesAt cell ∧
      m2.cells.length = m.cells.length ∧
      (∀ (i : Nat) (r : EntityRef), r ∈ m2.entitiesAt i ↔ r ∈ m.entitiesAt i) := by
  have hlt := getCellIndex_lt_length m e.position hm hpos hdiv
  have hcell := getCell_of_lt m e.position hlt
  have hcell1 : getCell m (adjustPosition m e.position) =
      Except.ok (adjustPosition m e.position, (getCellIndex m e.position).2) := by
    have h := getCell_of_lt m (adjustPosition m e.position)
      (getCellIndex_lt_length m _ hm hpos hdiv)
    rw [adjustPosition_idem, getCellIndex_adjust] at h
    exact h
  have hback : updateCell (fun c => c.removeEntity e.ref)
      (updateCell (fun c => c.addEntity e.ref) m.cells (getCellIndex m e.position).2)
      (getCellIndex m e.position).2 = m.cells := by
    rw [updateCell_twice]
    exact updateCell_fixed _ _ _ (fun c hc => removeEntity_addEntity c e.ref (hfresh c hc))
  have hadd := add_of_getCell m e _ _ hcell1
  generalize hm1 : ({ m with cells := (updateCell (fun c => c.addEntity e.ref) m.cells
      (getCellIndex m e.position).2) } : Map) = m1 at hadd
  have hs : m1.size = m.size := by rw [← hm1]
  have hr : m1.rowCount = m.rowCount := by rw [← hm1]
  have hc : m1.cells = updateCell (fun c => c.addEntity e.ref) m.cells
      (getCellIndex m e.position).2 := by rw [← hm1]
  have hl : m1.cells.length = m.cells.length := by rw [hc, updateCell_length]
  have hcell2 : getCell m1 (adjustPosition m e.position) =
      Except.ok (adjustPosition m e.position, (getCellIndex m e.position).2) := by
    rw [getCell_congr m m1 _ hs hr hl]
    exact hcell1
  have hcell3 : getCell m1 (adjustPosition m1 (adjustPosition m e.position)) =
      Except.ok (adjustPosition m e.position, (getCellIndex m e.position).2) := by
    rw [adjustPosition_congr m m1 _ hs, adjustPosition_idem]
    exact hcell2
  have hrem := remove_of_getCell m1 { e with position := adjustPosition m e.position } _ _ hcell3
  have hm2 : ({ m1 with cells := (updateCell (fun c => c.removeEntity e.ref) m1.cells
      (getCellIndex m e.position).2) } : Map) = m := by
    rw [hc, hback, ← hm1]
  rw [hm2] at hrem
  refine ⟨m1, { e with position := adjustPosition m e.position }, m,
    { e with position := adjustPosition m e.position }, (getCellIndex m e.position).2,
    hadd, hrem, hcell, hcell2, ?_, rfl, fun _ _ => Iff.rfl⟩
  unfold Map.entitiesAt
  rw [hc, updateCell_get _ _ _ hlt, List.get?_eq_get hlt]
  simp [MapCell.addEntity]

/-- On the map of size 32 the character 9 at the finite position (40, 0, -1) is clamped to
(31, 0, 0), goes into cell 1 and is taken out of it again. -/
theorem add_remove_restores_witness :
    map32.Loaded ∧ 0 < map32.size ∧ CELL_SIZE ∣ map32.size ∧
    ∃ (m1 : Map) (e1 : Entity) (m2 : Map) (e2 : Entity) (cell : Nat),
      add map32 { ref := { type := EntityType.Character, id := 9 },
                  position := { map := 0, x := 40, y := 0, z := -1 } } = Except.ok (m1, e1) ∧
      remove m1 e1 = Except.ok (m2, e2) ∧
      getCell map32 { map := 0, x := 40, y := 0, z := -1 } = Except.ok (e1.position, cell) ∧
      getCell m1 e1.position = Except.ok (e2.position, cell) ∧
      ({ type := EntityType.Character, id := 9 } : EntityRef) ∈ m1.entitiesAt cell ∧
      m2.cells.length = map32.cells.length ∧
      (∀ (i : Nat) (r : EntityRef), r ∈ m2.entitiesAt i ↔ r ∈ map32.entitiesAt i) :=
  ⟨by decide, by decide, by decide,
    add_remove_restores map32
      { ref := { type := EntityType.Character, id := 9 },
        position := { map := 0, x := 40, y := 0, z := -1 } }
      (by decide) (by decide) (by decide) (by decide)⟩

/-! ## Entity lookup -/

theorem findInCell_eq_find (entities : List EntityRef) (id : Nat) (type : EntityType) :
    findInCell entities id type =
      entities.find? (fun e => decide (e.type = type ∧ e.id = id)) := by
  induction entities with
  | nil => rfl
  | cons e rest ih =>
    unfold findInCell
    rw [List.find?_cons, ih]
    by_cases ht : e.type = type <;> by_cases hi : e.id = id <;> simp [ht, hi]

theorem findInCells_eq_find (m : Map) (neighbours : List Nat) (id : Nat) (type : EntityType) :
    findInCells m neighbours id type =
      (neighbours.flatMap m.entitiesAt).find? (fun e => decide (e.type = type ∧ e.id = id)) := by
  induction neighbours with
  | nil => rfl
  | cons cell rest ih =>
    unfold findInCells
    rw [List.flatMap_cons, List.find?_append, ← ih, ← findInCell_eq_find]
    cases findInCell (m.entitiesAt cell) id type <;> rfl

/-- C9: `Map::get` returns an entity exactly when some cell of the neighbourhood of the
position holds an entity with the requested type and id; the entity returned has that
type and id and is the first such entity of the neighbouring cells taken in cell order
and, inside a cell, in entity order; otherwise the result is none (`nullptr`). -/
theorem get_first_match (m : Map) (mode : RoundingMode) (pos : Position) (id : Nat)
    (type : EntityType) :
    ((∃ e, (get m mode pos id type).2 = some e) ↔
      ∃ cell ∈ (getNeighbouringCells m mode pos).2, ∃ e ∈ m.entitiesAt cell,
        e.type = type ∧ e.id = id) ∧
    (∀ e, (get m mode pos id type).2 = some e ↔
      (e.type = type ∧ e.id = id) ∧
      ∃ before after : List EntityRef,
        (getNeighbouringCells m mode pos).2.flatMap m.entitiesAt = before ++ e :: after ∧
        ∀ b ∈ before, ¬ (b.type = type ∧ b.id = id)) ∧
    ((get m mode pos id type).2 = none ↔
      ∀ cell ∈ (getNeighbouringCells m mode pos).2, ∀ e ∈ m.entitiesAt cell,
        ¬ (e.type = type ∧ e.id = id)) := by
  have hget : (get m mode pos id type).2 =
      ((getNeighbouringCells m mode pos).2.flatMap m.entitiesAt).find?
        (fun e => decide (e.type = type ∧ e.id = id)) := by
    rw [← findInCells_eq_find]
    simp only [get]
  have hnone : (get m mode pos id type).2 = none ↔
      ∀ cell ∈ (getNeighbouringCells m mode pos).2, ∀ e ∈ m.entitiesAt cell,
        ¬ (e.type = type ∧ e.id = id) := by
    rw [hget, List.find?_eq_none]
    constructor
    · intro h cell hcell e he
      have := h e (List.mem_flatMap.mpr ⟨cell, hcell, he⟩)
      simpa using this
    · intro h e he
      obtain ⟨cell, hcell, hmem⟩ := List.mem_flatMap.mp he
      have := h cell hcell e hmem
      simpa using this
  refine ⟨?_, ?_, hnone⟩
  · constructor
    · rintro ⟨e, he⟩
      by_contra hno
      have hall : ∀ cell ∈ (getNeighbouringCells m mode pos).2, ∀ e ∈ m.entitiesAt cell,
          ¬ (e.type = type ∧ e.id = id) :=
        fun cell hcell e he hmatch => hno ⟨cell, hcell, e, he, hmatch⟩
      rw [hnone.mpr hall] at he
      exact Option.noConfusion he
    · rintro ⟨cell, hcell, e, he, hmatch⟩
      cases hres : (get m mode pos id type).2 with
      | some r => exact ⟨r, rfl⟩
      | none => exact absurd hmatch (hnone.mp hres cell hcell e he)
  · intro e
    rw [hget, List.find?_eq_some]
    constructor
    · rintro ⟨hp, before, after, hsplit, hbefore⟩
      refine ⟨of_decide_eq_true hp, before, after, hsplit, ?_⟩
      intro b hb
      have hnot := hbefore b hb
      simp only [Bool.not_eq_true', decide_eq_false_iff_not] at hnot
      exact hnot
    · rintro ⟨hp, before, after, hsplit, hbefore⟩
      refine ⟨decide_eq_true hp, before, after, hsplit, ?_⟩
      intro b hb
      simp only [Bool.not_eq_true', decide_eq_false_iff_not]
      exact hbefore b hb

/-! ## Command dispatch -/

theorem tokenize_teleport :
    tokenize "#teleport 100 50 100".toList =
      Except.ok ["#teleport".toList, "100".toList, "50".toList, "100".toList] := by
  rfl

theorem tokenize_unknown :
    tokenize "#unknown foo".toList = Except.ok ["#unknown".toList, "foo".toList] := by
  rfl

theorem execute_found {σ : Type} (cm : CommandManager σ) (character : σ)
    (text first : List Char) (args : List (List Char)) (command : Command σ)
    (htok : tokenize text = Except.ok (first :: args)) (hfirst : first ≠ [])
    (hfound : cm.commands ((first.drop 1).map Char.toLower) = some command) :
    (cm.execute character text).invoked = [((first.drop 1).map Char.toLower, args)] ∧
    (cm.execute character text).character = (command.execute character args).1 := by
  have hlen : ¬ first.length < 1 := by
    cases first with
    | nil => exact absurd rfl hfirst
    | cons c cs => simp
  unfold CommandManager.execute
  simp only [htok, if_neg hlen, hfound]
  rcases hrun : command.execute character args with ⟨after, _ | _ | _⟩ <;> exact ⟨rfl, rfl⟩

theorem execute_not_found {σ : Type} (cm : CommandManager σ) (character : σ)
    (text first : List Char) (args : List (List Char))
    (htok : tokenize text = Except.ok (first :: args)) (hfirst : first ≠ [])
    (hnone : cm.commands ((first.drop 1).map Char.toLower) = none) :
    (cm.execute character text).invoked = [] ∧
    (cm.execute character text).character = character ∧
    (cm.execute character text).raised = none := by
  have hlen : ¬ first.length < 1 := by
    cases first with
    | nil => exact absurd rfl hfirst
    | cons c cs => simp
  unfold CommandManager.execute
  simp only [htok, if_neg hlen, hnone]
  exact ⟨trivial, trivial, trivial⟩

/-- C10: for a command text whose tokens are `first :: args`, with `first` holding at
least its prefix character, `CommandManager::execute` looks up the lower-cased `first`
without its first character.  If a handler is registered under that key it is invoked
exactly once, with `args` in order, and the state afterwards is the one the handler
leaves; if none is registered no handler is invoked, the state is unchanged and nothing
is thrown.  In particular "#teleport 100 50 100" reaches the handler registered under
"teleport" with the arguments "100", "50", "100", and "#unknown foo" invokes nothing. -/
theorem execute_dispatch {σ : Type} (cm : CommandManager σ) (character : σ)
    (text first : List Char) (args : List (List Char))
    (htok : tokenize text = Except.ok (first :: args)) (hfirst : first ≠ []) :
    (∀ command : Command σ, cm.commands ((first.drop 1).map Char.toLower) = some command →
      (cm.execute character text).invoked = [((first.drop 1).map Char.toLower, args)] ∧
      (cm.execute character text).character = (command.execute character args).1) ∧
    (cm.commands ((first.drop 1).map Char.toLower) = none →
      (cm.execute character text).invoked = [] ∧
      (cm.execute character text).character = character ∧
      (cm.execute character text).raised = none) ∧
    (∀ command : Command σ, cm.commands "teleport".toList = some command →
      (cm.execute character "#teleport 100 50 100".toList).invoked =
        [("teleport".toList, ["100".toList, "50".toList, "100".toList])] ∧
      (cm.execute character "#teleport 100 50 100".toList).character =
        (command.execute character ["100".toList, "50".toList, "100".toList]).1) ∧
    (cm.commands "unknown".toList = none →
      (cm.execute character "#unknown foo".toList).invoked = [] ∧
      (cm.execute character "#unknown foo".toList).character = character ∧
      (cm.execute character "#unknown foo".toList).raised = none) := by
  refine ⟨?_, ?_, ?_, ?_⟩
  · intro command hfound
    exact execute_found cm character text first args command htok hfirst hfound
  · intro hnone
    exact execute_not_found cm character text first args htok hfirst hnone
  · intro command hfound
    exact execute_found cm character _ "#teleport".toList _ command tokenize_teleport
      (by decide) hfound
  · intro hnone
    exact execute_not_found cm character _ "#unknown".toList _ tokenize_unknown
      (by decide) hnone

/-- Witness for C10: with only "teleport" registered, the text "#TelePort 7 \"a b\""
reaches that handler with the arguments "7" and "a b". -/
theorem execute_dispatch_witness :
    tokenize "#TelePort 7 \"a b\"".toList =
      Except.ok ["#TelePort".toList, "7".toList, "a b".toList] ∧
    "#TelePort".toList ≠ [] ∧
    teleportOnly.commands (("#TelePort".toList.drop 1).map Char.toLower) =
      some teleportCommand ∧
    (teleportOnly.execute [] "#TelePort 7 \"a b\"".toList).invoked =
      [("teleport".toList, ["7".toList, "a b".toList])] ∧
    (teleportOnly.execute [] "#TelePort 7 \"a b\"".toList).character =
      ["7".toList, "a b".toList] :=
  ⟨rfl, by decide, rfl,
    ((execute_dispatch teleportOnly [] "#TelePort 7 \"a b\"".toList "#TelePort".toList
      ["7".toList, "a b".toList] rfl (by decide)).1 teleportCommand rfl).1,
    ((execute_dispatch teleportOnly [] "#TelePort 7 \"a b\"".toList "#TelePort".toList
      ["7".toList, "a b".toList] rfl (by decide)).1 teleportCommand rfl).2⟩

theorem execute_catches_std {σ : Type} (cm : CommandManager σ) (character : σ)
    (text first : List Char) (args : List (List Char)) (command : Command σ)
    (what : List Char) (htok : tokenize text = Except.ok (first :: args)) (hfirst : first ≠ [])
    (hfound : cm.commands ((first.drop 1).map Char.toLower) = some command)
    (hthrow : (command.execute character args).2 = some (Raised.stdException what)) :
    (cm.execute character text).raised = none := by
  have hlen : ¬ first.length < 1 := by
    cases first with
    | nil => exact absurd rfl hfirst
    | cons c cs => simp
  unfold CommandManager.execute
  simp only [htok, if_neg hlen, hfound]
  rcases hrun : command.execute character args with ⟨after, _ | _ | _⟩
  · rfl
  · rfl
  · rw [hrun] at hthrow
    exact absurd hthrow (by simp)

/-- C11 fails on the code: whatever handlers are registered, `CommandManager::execute`
lets an exception out for the text "#teleport \" (trailing escape character) and for
"#teleport C:\dir" (unknown escape sequence), both `escaped_list_error` from the
tokenizer, and for a text that starts with a space, `std::out_of_range` from
`substr(1)`; on the empty text it dereferences `args.begin()` of an empty vector; and a
handler that throws something other than a `std::exception` is not caught either. -/
theorem execute_lets_exceptions_out {σ : Type} (cm : CommandManager σ) (character : σ) :
    (cm.execute character "#teleport \\".toList).raised = some Exn.escapedListError ∧
    (cm.execute character "#teleport \\".toList).invoked = [] ∧
    (cm.execute character "#teleport C:\\dir".toList).raised = some Exn.escapedListError ∧
    (cm.execute character " teleport".toList).raised = some Exn.outOfRange ∧
    (cm.execute character "".toList).raised = some Exn.undefinedBehaviour ∧
    ((CommandManager.registerCommand { commands := fun _ => none } crashCommand).execute []
        "#crash".toList).raised = some Exn.foreignException := by
  refine ⟨rfl, rfl, rfl, rfl, rfl, ?_⟩
  decide

/-! ## Command registration -/

theorem registerCommand_self {σ : Type} (cm : CommandManager σ) (command : Command σ) :
    (cm.registerCommand command).commands command.identifier = some command := by
  unfold CommandManager.registerCommand
  simp only [if_true]

/-- C12 fails on the code: `CommandManager::registerCommand` stores a handler whose
identifier is "Teleport" under "Teleport", not under "teleport", while
`CommandManager::execute` lower-cases every key it looks up; the command text
"#Teleport 1", whose first token is a prefix character followed by that identifier,
reaches no handler and leaves the state unchanged. -/
theorem registerCommand_keeps_letter_case :
    capitalCommand.identifier = "Teleport".toList ∧
    (CommandManager.registerCommand { commands := fun _ => none } capitalCommand).commands
      "Teleport".toList = some capitalCommand ∧
    (CommandManager.registerCommand { commands := fun _ => none } capitalCommand).commands
      "teleport".toList = none ∧
    tokenize "#Teleport 1".toList = Except.ok ["#Teleport".toList, "1".toList] ∧
    ((CommandManager.registerCommand { commands := fun _ => none } capitalCommand).execute []
      "#Teleport 1".toList).invoked = [] ∧
    ((CommandManager.registerCommand { commands := fun _ => none } capitalCommand).execute []
      "#Teleport 1".toList).character = [] := by
  refine ⟨rfl, rfl, rfl, rfl, ?_, ?_⟩ <;> decide

/-- A handler whose identifier contains no upper-case letter (lower-casing leaves it
unchanged) is reached after `registerCommand` by a command text whose first token is a
prefix character followed by the identifier, written in any letter case: it is called
exactly once with the remaining tokens. -/
theorem registerCommand_dispatch {σ : Type} (cm : CommandManager σ) (command : Command σ)
    (character : σ) (text name : List Char) (prefixChar : Char) (args : List (List Char))
    (hlower : command.identifier.map Char.toLower = command.identifier)
    (htok : tokenize text = Except.ok ((prefixChar :: name) :: args))
    (hname : name.map Char.toLower = command.identifier.map Char.toLower) :
    (cm.registerCommand command).commands command.identifier = some command ∧
    ((cm.registerCommand command).execute character text).invoked =
      [(command.identifier, args)] ∧
    ((cm.registerCommand command).execute character text).character =
      (command.execute character args).1 := by
  have hself := registerCommand_self cm command
  have hkey : ((prefixChar :: name).drop 1).map Char.toLower = command.identifier := by
    rw [List.drop_one, List.tail_cons, hname]
    exact hlower
  have hfound : (cm.registerCommand command).commands
      (((prefixChar :: name).drop 1).map Char.toLower) = some command := by
    rw [hkey]
    exact hself
  have hrun := execute_found (cm.registerCommand command) character text
    (prefixChar :: name) args command htok (List.cons_ne_nil _ _) hfound
  rw [hkey] at hrun
  exact ⟨hself, hrun.1, hrun.2⟩

/-- The handler "teleport" is registered and the text "#TELEPORT 5" reaches it with the
argument "5". -/
theorem registerCommand_dispatch_witness :
    teleportCommand.identifier.map Char.toLower = teleportCommand.identifier ∧
    tokenize "#TELEPORT 5".toList = Except.ok (('#' :: "TELEPORT".toList) :: ["5".toList]) ∧
    "TELEPORT".toList.map Char.toLower = teleportCommand.identifier.map Char.toLower ∧
    ((CommandManager.registerCommand { commands := fun _ => none } teleportCommand).execute []
      "#TELEPORT 5".toList).invoked = [("teleport".toList, ["5".toList])] ∧
    ((CommandManager.registerCommand { commands := fun _ => none } teleportCommand).execute []
      "#TELEPORT 5".toList).character = ["5".toList] :=
  ⟨by decide, rfl, by decide,
    (registerCommand_dispatch { commands := fun _ => none } teleportCommand []
      "#TELEPORT 5".toList "TELEPORT".toList '#' ["5".toList] (by decide) rfl (by decide)).2.1,
    (registerCommand_dispatch { commands := fun _ => none } teleportCommand []
      "#TELEPORT 5".toList "TELEPORT".toList '#' ["5".toList] (by decide) rfl (by decide)).2.2⟩

/-! ## Session reads -/

theorem handleRead_close (buf : List Nat) (error : Bool) (bytesTransferred : Nat)
    (h : ¬ (error = false ∧ 0 < bytesTransferred ∧ readUInt16 buf 0 = bytesTransferred)) :
    (handleRead buf error bytesTransferred).1 = [SessionCall.close] := by
  unfold handleRead
  by_cases h1 : error = true ∨ bytesTransferred ≤ 0
  · rw [if_pos h1]
  · rw [if_neg h1]
    have he : error = false := by
      cases error with
      | false => rfl
      | true => exact absurd (Or.inl rfl) h1
    have hb : 0 < bytesTransferred := by omega
    have hne : readUInt16 buf 0 ≠ bytesTransferred := fun heq => h ⟨he, hb, heq⟩
    simp only [if_pos hne]

theorem handleRead_onRead (buf : List Nat) (bytesTransferred : Nat)
    (hb : 0 < bytesTransferred) (hlen : readUInt16 buf 0 = bytesTransferred) :
    (handleRead buf false bytesTransferred).1 =
      [SessionCall.onRead (readUInt16 buf 2) (sizeSub bytesTransferred 2), SessionCall.read] := by
  unfold handleRead
  have h1 : ¬ (false = true ∨ bytesTransferred ≤ 0) := by
    rintro (h | h)
    · exact Bool.noConfusion h
    · omega
  have h2 : ¬ (bytesTransferred ≠ bytesTransferred) := fun h => h rfl
  simp only [if_neg h1, hlen, if_neg h2]

/-- C13: `Session::handleRead` calls `onRead` if and only if there is no transport error,
`bytesTransferred > 0` and the 16-bit length prefix at the start of the buffer equals
`bytesTransferred`; it then calls it exactly once, before `read()`.  In every other case
the only call it makes is `close()`.  A frame that declares length 10 and arrives with 6
bytes closes the session without any handler call. -/
theorem handleRead_onRead_iff (buf : List Nat) (error : Bool) (bytesTransferred : Nat) :
    ((∃ opcode length : Nat,
        SessionCall.onRead opcode length ∈ (handleRead buf error bytesTransferred).1) ↔
      (error = false ∧ 0 < bytesTransferred ∧ readUInt16 buf 0 = bytesTransferred)) ∧
    ((error = false ∧ 0 < bytesTransferred ∧ readUInt16 buf 0 = bytesTransferred) →
      (handleRead buf error bytesTransferred).1 =
        [SessionCall.onRead (readUInt16 buf 2) (sizeSub bytesTransferred 2),
          SessionCall.read]) ∧
    (¬ (error = false ∧ 0 < bytesTransferred ∧ readUInt16 buf 0 = bytesTransferred) →
      (handleRead buf error bytesTransferred).1 = [SessionCall.close]) ∧
    (∀ rest : List Nat,
      readUInt16 (10 :: 0 :: rest) 0 = 10 ∧
      (handleRead (10 :: 0 :: rest) false 6).1 = [SessionCall.close]) := by
  refine ⟨⟨?_, ?_⟩, ?_, handleRead_close buf error bytesTransferred, ?_⟩
  · rintro ⟨opcode, length, hmem⟩
    by_contra hcond
    rw [handleRead_close buf error bytesTransferred hcond, List.mem_singleton] at hmem
    exact SessionCall.noConfusion hmem
  · rintro ⟨he, hb, hlen⟩
    subst he
    rw [handleRead_onRead buf bytesTransferred hb hlen]
    exact ⟨_, _, List.mem_cons_self _ _⟩
  · rintro ⟨he, hb, hlen⟩
    subst he
    exact handleRead_onRead buf bytesTransferred hb hlen
  · intro rest
    have hdeclared : readUInt16 (10 :: 0 :: rest) 0 = 10 := rfl
    refine ⟨hdeclared, handleRead_close _ _ _ ?_⟩
    rintro ⟨_, _, h⟩
    rw [hdeclared] at h
    exact absurd h (by decide)

/-- C15 fails on the code: a read of one byte whose buffer starts with the bytes 1, 0 has
the length prefix 1, equal to `bytesTransferred`, so `Session::handleRead` calls `onRead`
with the payload length `1 - 2` computed in `size_t`, which is `2 ^ 64 - 1` and far above
the one byte received. -/
theorem handleRead_length_underflow (rest : List Nat) :
    readUInt16 (1 :: 0 :: rest) 0 = 1 ∧
    (handleRead (1 :: 0 :: rest) false 1).1 =
      [SessionCall.onRead (readUInt16 (1 :: 0 :: rest) 2) 18446744073709551615,
        SessionCall.read] ∧
    ¬ (18446744073709551615 ≤ 1) := by
  have hdeclared : readUInt16 (1 :: 0 :: rest) 0 = 1 := rfl
  refine ⟨hdeclared, ?_, by decide⟩
  rw [handleRead_onRead _ 1 (by decide) hdeclared]
  rfl

/-! ## Neighbourhood at the far edge -/

/-- C14 fails on the code: on the map loaded with size 1024, under every rounding
direction, the position (1200, 60, 1200) is clamped to (1023, 60, 1023) and has the
center cell in row 63, column 63; `Map::getNeighbouringCells` returns the cell with index
3904, which is the cell in row 0 and column 61: the loop row 64 does not exist in the map
and `64 + 60 * 64` is a valid index of the next column. -/
theorem getNeighbouringCells_wraps_rows (mode : RoundingMode) :
    adjustPosition map1024 { map := 0, x := 1200, y := 60, z := 1200 } =
      { map := 0, x := 1023, y := 60, z := 1023 } ∧
    centerRow map1024 mode { map := 0, x := 1200, y := 60, z := 1200 } = 63 ∧
    centerColumn map1024 mode { map := 0, x := 1200, y := 60, z := 1200 } = 63 ∧
    3904 ∈ (getNeighbouringCells map1024 mode { map := 0, x := 1200, y := 60, z := 1200 }).2 ∧
    3904 = 0 + 61 * map1024.rowCount ∧ 3904 = 64 + 60 * map1024.rowCount ∧
    ¬ (63 - 0 ≤ OBSERVABLE_CELL_RADIUS) := by
  have hr : centerRow map1024 mode { map := 0, x := 1200, y := 60, z := 1200 } = 63 := by
    rw [centerRow_of_int map1024 mode _ 1023 (by decide)]
    decide
  have hc : centerColumn map1024 mode { map := 0, x := 1200, y := 60, z := 1200 } = 63 := by
    rw [centerColumn_of_int map1024 mode _ 1023 (by decide)]
    decide
  refine ⟨by decide, hr, hc, ?_, by decide, by decide, by decide⟩
  rw [mem_getNeighbouringCells, hr, hc, map1024_cells_length]
  exact ⟨64, 60, by decide, by decide, by decide, by decide⟩

/-! ## Idempotence of the adjustment -/

/-- C16: `Map::adjustPosition` is idempotent on every map (in particular on every map of
size at least 1): adjusting an adjusted position changes nothing.  Hence
`Map::getCellIndex` and `Map::getCell` give the same result for a position and for the
adjusted position, the position they leave behind is the once-adjusted one, `Map::add`
of an entity whose position was adjusted beforehand is `Map::add` of the entity, and the
entity leaves `Map::add` with the once-adjusted position. -/
theorem adjustPosition_idempotent (m : Map) (p : Position) :
    adjustPosition m (adjustPosition m p) = adjustPosition m p ∧
    getCellIndex m (adjustPosition m p) = getCellIndex m p ∧
    (getCellIndex m p).1 = adjustPosition m p ∧
    getCell m (adjustPosition m p) = getCell m p ∧
    (∀ (q : Position) (cell : Nat), getCell m p = Except.ok (q, cell) →
      q = adjustPosition m p ∧ cell = (getCellIndex m p).2) ∧
    (∀ e : Entity, add m { e with position := adjustPosition m e.position } = add m e) ∧
    (∀ (e e1 : Entity) (m1 : Map), add m e = Except.ok (m1, e1) →
      e1.position = adjustPosition m e.position) := by
  have hidem : ∀ q : Position, adjustPosition m (adjustPosition m q) = adjustPosition m q :=
    adjustPosition_idem m
  have hcell : ∀ q : Position, getCell m q =
      if (getCellIndex m q).2 < m.cells.length
      then Except.ok (adjustPosition m q, (getCellIndex m q).2)
      else Except.error Exn.outOfRange := by
    intro q
    unfold getCell
    simp only [getCellIndex_adjust, getCellIndex_fst]
  refine ⟨hidem p, getCellIndex_adjust m p, rfl, ?_, ?_, ?_, ?_⟩
  · rw [hcell, hcell, getCellIndex_adjust, hidem]
  · intro q cell h
    rw [hcell] at h
    split_ifs at h
    have hpair := Except.ok.inj h
    exact ⟨(congrArg Prod.fst hpair).symm, (congrArg Prod.snd hpair).symm⟩
  · intro e
    unfold add
    simp only [hidem]
  · intro e e1 m1 h
    unfold add at h
    simp only [hcell, hidem, getCellIndex_adjust] at h
    split_ifs at h
    simp only at h
    have hpair := Except.ok.inj h
    have hent : ({ ref := e.ref, position := adjustPosition m e.position } : Entity) = e1 :=
      congrArg Prod.snd hpair
    rw [← hent]

/-! ## Position clamping on float coordinates -/

theorem floatOfNat_small (mode : RoundingMode) (n : Nat) (h : n < 2 ^ 24) : floatOfNat mode n = (n : ℚ) := by
  unfold floatOfNat
  rw [if_pos h]

theorem floatOfNat_nonneg (mode : RoundingMode) (n : Nat) : 0 ≤ floatOfNat mode n := by
  unfold floatOfNat
  split_ifs <;> exact Nat.cast_nonneg _

theorem fp_adjustPosition_x (mode : RoundingMode) (m : Map) (p : Fp.Position) :
    (Fp.adjustPosition mode m p).x =
      Fp.clamp (floatOfNat mode m.size) (floatOfNat mode (sizeSub m.size 1)) p.x := by
  unfold Fp.adjustPosition Fp.clamp Fp.floorZero
  generalize floatOfNat mode m.size = bound
  generalize floatOfNat mode (sizeSub m.size 1) = top
  obtain ⟨mp, x, y, z⟩ := p
  dsimp only
  split_ifs <;> rfl

theorem fp_adjustPosition_y (mode : RoundingMode) (m : Map) (p : Fp.Position) :
    (Fp.adjustPosition mode m p).y = Fp.floorZero p.y := by
  unfold Fp.adjustPosition Fp.floorZero
  generalize floatOfNat mode m.size = bound
  generalize floatOfNat mode (sizeSub m.size 1) = top
  obtain ⟨mp, x, y, z⟩ := p
  dsimp only
  split_ifs <;> rfl

theorem fp_adjustPosition_z (mode : RoundingMode) (m : Map) (p : Fp.Position) :
    (Fp.adjustPosition mode m p).z =
      Fp.clamp (floatOfNat mode m.size) (floatOfNat mode (sizeSub m.size 1)) p.z := by
  unfold Fp.adjustPosition Fp.clamp Fp.floorZero
  generalize floatOfNat mode m.size = bound
  generalize floatOfNat mode (sizeSub m.size 1) = top
  obtain ⟨mp, x, y, z⟩ := p
  dsimp only
  split_ifs <;> rfl

theorem fp_adjustPosition_map (mode : RoundingMode) (m : Map) (p : Fp.Position) :
    (Fp.adjustPosition mode m p).map = p.map := by
  unfold Fp.adjustPosition
  generalize floatOfNat mode m.size = bound
  generalize floatOfNat mode (sizeSub m.size 1) = top
  obtain ⟨mp, x, y, z⟩ := p
  dsimp only
  split_ifs <;> rfl

theorem fp_position_eq (a b : Fp.Position) (h1 : a.map = b.map) (h2 : a.x = b.x)
    (h3 : a.y = b.y) (h4 : a.z = b.z) : a = b := by
  cases a
  cases b
  simp only [Fp.Position.mk.injEq]
  exact ⟨h1, h2, h3, h4⟩

theorem fp_floorZero_idem (v : Fp.Value) : Fp.floorZero (Fp.floorZero v) = Fp.floorZero v := by
  cases v with
  | nan => rfl
  | negInf => simp [Fp.floorZero, Fp.Value.lt]
  | posInf => rfl
  | finite a =>
    by_cases h : a < 0 <;> simp [Fp.floorZero, Fp.Value.lt, h]

theorem fp_clamp_idem (bound top : ℚ) (htop : 0 ≤ top) (v : Fp.Value) :
    Fp.clamp bound top (Fp.clamp bound top v) = Fp.clamp bound top v := by
  have hzero : Fp.floorZero (Fp.Value.finite top) = Fp.Value.finite top := by
    simp [Fp.floorZero, Fp.Value.lt, not_lt.mpr htop]
  by_cases h : (Fp.floorZero v).ge bound = true
  · have hv : Fp.clamp bound top v = Fp.Value.finite top := by
      unfold Fp.clamp
      rw [if_pos h]
    rw [hv]
    unfold Fp.clamp
    rw [hzero]
    split_ifs <;> rfl
  · have hv : Fp.clamp bound top v = Fp.floorZero v := by
      unfold Fp.clamp
      rw [if_neg h]
    rw [hv]
    unfold Fp.clamp
    rw [fp_floorZero_idem, if_neg h]

theorem fp_adjustPosition_idem (mode : RoundingMode) (m : Map) (p : Fp.Position) :
    Fp.adjustPosition mode m (Fp.adjustPosition mode m p) = Fp.adjustPosition mode m p := by
  apply fp_position_eq
  · rw [fp_adjustPosition_map mode]
  · rw [fp_adjustPosition_x mode m (Fp.adjustPosition mode m p), fp_adjustPosition_x mode m p]
    exact fp_clamp_idem _ _ (floatOfNat_nonneg mode _) _
  · rw [fp_adjustPosition_y mode m (Fp.adjustPosition mode m p), fp_adjustPosition_y mode m p]
    exact fp_floorZero_idem _
  · rw [fp_adjustPosition_z mode m (Fp.adjustPosition mode m p), fp_adjustPosition_z mode m p]
    exact fp_clamp_idem _ _ (floatOfNat_nonneg mode _) _

/-- On a map with `1 <= size < 2 ^ 24` a coordinate that is not NaN is clamped to a finite
value in `[0, size)`. -/
theorem fp_clamp_range (mode : RoundingMode) (size : Nat) (v : Fp.Value) (hsize : 1 ≤ size) (hfloat : size < 2 ^ 24)
    (hv : v ≠ Fp.Value.nan) :
    ∃ q : ℚ, Fp.clamp (floatOfNat mode size) (floatOfNat mode (sizeSub size 1)) v = Fp.Value.finite q ∧
      0 ≤ q ∧ q < (size : ℚ) := by
  have hsub : sizeSub size 1 = size - 1 := sizeSub_one hsize (by omega)
  have h1 : (1 : ℚ) ≤ (size : ℚ) := by exact_mod_cast hsize
  have hcast : ((size - 1 : Nat) : ℚ) = (size : ℚ) - 1 := by
    rw [Nat.cast_sub hsize]
    simp
  rw [hsub, floatOfNat_small mode size hfloat, floatOfNat_small mode (size - 1) (by omega), hcast]
  cases v with
  | nan => exact absurd rfl hv
  | negInf =>
    refine ⟨0, ?_, le_refl _, by linarith⟩
    have hno : ¬ ((size : ℚ) ≤ 0) := by linarith
    simp [Fp.clamp, Fp.floorZero, Fp.Value.lt, Fp.Value.ge, hno]
  | posInf =>
    refine ⟨(size : ℚ) - 1, ?_, by linarith, by linarith⟩
    simp [Fp.clamp, Fp.floorZero, Fp.Value.lt, Fp.Value.ge]
  | finite a =>
    by_cases ha : a < 0
    · refine ⟨0, ?_, le_refl _, by linarith⟩
      have hno : ¬ ((size : ℚ) ≤ 0) := by linarith
      simp [Fp.clamp, Fp.floorZero, Fp.Value.lt, Fp.Value.ge, ha, hno]
    · by_cases hb : (size : ℚ) ≤ a
      · refine ⟨(size : ℚ) - 1, ?_, by linarith, by linarith⟩
        simp [Fp.clamp, Fp.floorZero, Fp.Value.lt, Fp.Value.ge, ha, hb]
      · refine ⟨a, ?_, not_lt.mp ha, not_le.mp hb⟩
        simp [Fp.clamp, Fp.floorZero, Fp.Value.lt, Fp.Value.ge, ha, hb]

theorem fp_clamp_top (mode : RoundingMode) (size : Nat) (v : Fp.Value) (hsize : 1 ≤ size) (hfloat : size < 2 ^ 24)
    (hv : v.ge (size : ℚ) = true) :
    Fp.clamp (floatOfNat mode size) (floatOfNat mode (sizeSub size 1)) v =
      Fp.Value.finite ((size - 1 : Nat) : ℚ) := by
  have hsub : sizeSub size 1 = size - 1 := sizeSub_one hsize (by omega)
  have h1 : (1 : ℚ) ≤ (size : ℚ) := by exact_mod_cast hsize
  rw [hsub, floatOfNat_small mode size hfloat, floatOfNat_small mode (size - 1) (by omega)]
  have hfloor : Fp.floorZero v = v := by
    cases v with
    | nan => rfl
    | negInf => exact absurd hv (by simp [Fp.Value.ge])
    | posInf => rfl
    | finite a =>
      have ha : (size : ℚ) ≤ a := by simpa [Fp.Value.ge] using hv
      have hno : ¬ a < 0 := by linarith
      simp [Fp.floorZero, Fp.Value.lt, hno]
  unfold Fp.clamp
  rw [hfloor, if_pos hv]

theorem fp_floorZero_ge (v : Fp.Value) (hv : v ≠ Fp.Value.nan) :
    (Fp.floorZero v).ge 0 = true := by
  cases v with
  | nan => exact absurd rfl hv
  | negInf => simp [Fp.floorZero, Fp.Value.lt, Fp.Value.ge]
  | posInf => simp [Fp.floorZero, Fp.Value.lt, Fp.Value.ge]
  | finite a =>
    by_cases ha : a < 0
    · simp [Fp.floorZero, Fp.Value.lt, Fp.Value.ge, ha]
    · simp [Fp.floorZero, Fp.Value.lt, Fp.Value.ge, ha, not_lt.mp ha]

theorem fp_floorZero_keep (v : Fp.Value) (hv : v.ge 0 = true) : Fp.floorZero v = v := by
  cases v with
  | nan => rfl
  | negInf => exact absurd hv (by simp [Fp.Value.ge])
  | posInf => rfl
  | finite a =>
    have ha : (0 : ℚ) ≤ a := by simpa [Fp.Value.ge] using hv
    simp [Fp.floorZero, Fp.Value.lt, not_lt.mpr ha]

/-- C2 as stated fails.  On a map of size 16 the position (0, 20, 0) keeps y = 20, which is
neither `size - 1 = 15` nor below the size; a position whose coordinates are NaN passes
every comparison of `Map::adjustPosition` and stays as it is, so its components are
neither at least 0 nor below the size afterwards; and on a map of size 16777218 the
coordinate x = 16777218 becomes `float(16777217)`, which is 16777216 and not `size - 1`,
under the default rounding direction as well as under `FE_TOWARDZERO`. -/
theorem fp_adjustPosition_not_clamped :
    (Fp.adjustPosition RoundingMode.toNearest map16
      { map := 0, x := Fp.Value.finite 0, y := Fp.Value.finite 20, z := Fp.Value.finite 0 }).y =
        Fp.Value.finite 20 ∧
    (Fp.Value.finite 20).ge (map16.size : ℚ) = true ∧
    (Fp.Value.finite 20).lt (map16.size : ℚ) = false ∧
    Fp.adjustPosition RoundingMode.toNearest map16
      { map := 0, x := Fp.Value.nan, y := Fp.Value.nan, z := Fp.Value.nan } =
        { map := 0, x := Fp.Value.nan, y := Fp.Value.nan, z := Fp.Value.nan } ∧
    Fp.Value.nan.ge 0 = false ∧ Fp.Value.nan.lt (map16.size : ℚ) = false ∧
    (Fp.adjustPosition RoundingMode.toNearest
      { id := 0, size := 16777218, rowCount := 1048576, columnCount := 1048576, cells := [] }
      { map := 0, x := Fp.Value.finite 16777218, y := Fp.Value.finite 0,
        z := Fp.Value.finite 0 }).x = Fp.Value.finite 16777216 ∧
    (Fp.adjustPosition RoundingMode.towardZero
      { id := 0, size := 16777218, rowCount := 1048576, columnCount := 1048576, cells := [] }
      { map := 0, x := Fp.Value.finite 16777218, y := Fp.Value.finite 0,
        z := Fp.Value.finite 0 }).x = Fp.Value.finite 16777216 ∧
    (16777216 : ℚ) ≠ ((16777218 - 1 : Nat) : ℚ) := by
  decide

/-- C2 (amended): on a map with `1 <= size < 2 ^ 24` (size and `size - 1` are then exact
as `float`), `Map::adjustPosition` sets an x or z coordinate that was at least the size
(also plus infinity) to `size - 1`; an x or z coordinate that is not NaN is afterwards a
finite number that is at least 0 and below the size; y is only floored at 0: a y that is
not NaN is at least 0 afterwards, and a y that was at least 0 (also one at or above the
size) is left as it was. -/
theorem fp_adjustPosition_clamps_x_z (mode : RoundingMode) (m : Map) (p : Fp.Position) (hsize : 1 ≤ m.size)
    (hfloat : m.size < 2 ^ 24) :
    (p.x.ge (m.size : ℚ) = true →
      (Fp.adjustPosition mode m p).x = Fp.Value.finite ((m.size - 1 : Nat) : ℚ)) ∧
    (p.z.ge (m.size : ℚ) = true →
      (Fp.adjustPosition mode m p).z = Fp.Value.finite ((m.size - 1 : Nat) : ℚ)) ∧
    (p.x ≠ Fp.Value.nan →
      ∃ q : ℚ, (Fp.adjustPosition mode m p).x = Fp.Value.finite q ∧ 0 ≤ q ∧ q < (m.size : ℚ)) ∧
    (p.z ≠ Fp.Value.nan →
      ∃ q : ℚ, (Fp.adjustPosition mode m p).z = Fp.Value.finite q ∧ 0 ≤ q ∧ q < (m.size : ℚ)) ∧
    (p.y ≠ Fp.Value.nan → (Fp.adjustPosition mode m p).y.ge 0 = true) ∧
    (p.y.ge 0 = true → (Fp.adjustPosition mode m p).y = p.y) := by
  rw [fp_adjustPosition_x, fp_adjustPosition_y, fp_adjustPosition_z mode]
  refine ⟨?_, ?_, ?_, ?_, ?_, ?_⟩
  · exact fp_clamp_top mode m.size p.x hsize hfloat
  · exact fp_clamp_top mode m.size p.z hsize hfloat
  · exact fp_clamp_range mode m.size p.x hsize hfloat
  · exact fp_clamp_range mode m.size p.z hsize hfloat
  · exact fp_floorZero_ge p.y
  · exact fp_floorZero_keep p.y

/-- Witness for C2 (amended) on the map of size 16: x = plus infinity becomes 15, z = 16
becomes 15 and y = 20 stays 20. -/
theorem fp_adjustPosition_clamps_x_z_witness :
    1 ≤ map16.size ∧ map16.size < 2 ^ 24 ∧
    (Fp.adjustPosition RoundingMode.toNearest map16
      { map := 0, x := Fp.Value.posInf, y := Fp.Value.finite 20, z := Fp.Value.finite 16 }).x =
        Fp.Value.finite 15 ∧
    (Fp.adjustPosition RoundingMode.toNearest map16
      { map := 0, x := Fp.Value.posInf, y := Fp.Value.finite 20, z := Fp.Value.finite 16 }).z =
        Fp.Value.finite 15 ∧
    (Fp.adjustPosition RoundingMode.toNearest map16
      { map := 0, x := Fp.Value.posInf, y := Fp.Value.finite 20, z := Fp.Value.finite 16 }).y =
        Fp.Value.finite 20 :=
  have h := fp_adjustPosition_clamps_x_z RoundingMode.toNearest map16
    { map := 0, x := Fp.Value.posInf, y := Fp.Value.finite 20, z := Fp.Value.finite 16 }
    (by decide) (by decide)
  ⟨by decide, by decide, h.1 (by decide), h.2.1 (by decide), h.2.2.2.2.2 (by decide)⟩

/-! ## Cell index on float coordinates -/

theorem fp_toSizeT_towardZero (size : Nat) (q : ℚ) (h0 : 0 ≤ q) (h1 : q < (size : ℚ))
    (hrange : size < SIZE_T_RANGE) :
    Fp.toSizeT RoundingMode.towardZero (Fp.Value.finite q) = Except.ok ⌊q⌋.toNat ∧
      ⌊q⌋.toNat < size := by
  have hf0 : 0 ≤ ⌊q⌋ := Int.floor_nonneg.mpr h0
  have hf1 : ⌊q⌋ < (size : ℤ) := by
    rw [Int.floor_lt]
    exact_mod_cast h1
  have hlt : ⌊q⌋.toNat < size := (Int.toNat_lt hf0).mpr hf1
  have hr : ⌊q⌋ < (SIZE_T_RANGE : ℤ) := by
    have : ((size : ℤ)) < (SIZE_T_RANGE : ℤ) := by exact_mod_cast hrange
    omega
  have hn : nearbyint RoundingMode.towardZero q = ⌊q⌋ := by
    simp only [nearbyint, if_pos h0]
  refine ⟨?_, hlt⟩
  unfold Fp.toSizeT
  simp only [hn]
  rw [if_pos ⟨hf0, hr⟩]

theorem fp_getCellIndex_of_finite (mode : RoundingMode) (m : Map) (p : Fp.Position) (qx qz : ℚ)
    (hx : (Fp.adjustPosition mode m p).x = Fp.Value.finite qx)
    (hz : (Fp.adjustPosition mode m p).z = Fp.Value.finite qz)
    (hx0 : 0 ≤ qx) (hx1 : qx < (m.size : ℚ)) (hz0 : 0 ≤ qz) (hz1 : qz < (m.size : ℚ))
    (hrange : m.size < SIZE_T_RANGE) :
    Fp.getCellIndex mode m p =
      Except.ok (Fp.adjustPosition mode m p,
        sizeAdd (⌊qx⌋.toNat / CELL_SIZE) (sizeMul (⌊qz⌋.toNat / CELL_SIZE) m.rowCount)) := by
  obtain ⟨ex, lx⟩ := fp_toSizeT_towardZero m.size qx hx0 hx1 hrange
  obtain ⟨ez, lz⟩ := fp_toSizeT_towardZero m.size qz hz0 hz1 hrange
  unfold Fp.getCellIndex
  simp only [hx, hz, ex, ez, min_eq_left (le_of_lt lx), min_eq_left (le_of_lt lz)]

/-- On a loaded map whose size is a positive multiple of 16 below `2 ^ 24`, a position
whose x and z are not NaN has a cell index below the number of cells. -/
theorem fp_getCellIndex_loaded (mode : RoundingMode) (m : Map) (p : Fp.Position) (hm : m.Loaded) (hpos : 0 < m.size)
    (hdiv : CELL_SIZE ∣ m.size) (hfloat : m.size < 2 ^ 24)
    (hx : p.x ≠ Fp.Value.nan) (hz : p.z ≠ Fp.Value.nan) :
    ∃ index : Nat, Fp.getCellIndex mode m p = Except.ok (Fp.adjustPosition mode m p, index) ∧
      index < m.cells.length := by
  obtain ⟨qx, hqx, hx0, hx1⟩ := fp_clamp_range mode m.size p.x hpos hfloat hx
  obtain ⟨qz, hqz, hz0, hz1⟩ := fp_clamp_range mode m.size p.z hpos hfloat hz
  rw [← fp_adjustPosition_x mode] at hqx
  rw [← fp_adjustPosition_z mode] at hqz
  have hidx := fp_getCellIndex_of_finite mode m p qx qz hqx hqz hx0 hx1 hz0 hz1 hm.1
  obtain ⟨_, lx⟩ := fp_toSizeT_towardZero m.size qx hx0 hx1 hm.1
  obtain ⟨_, lz⟩ := fp_toSizeT_towardZero m.size qz hz0 hz1 hm.1
  have hk := rowCount_mul_cell m hm hdiv
  have hrow : ⌊qx⌋.toNat / CELL_SIZE < m.rowCount := by
    unfold CELL_SIZE at hk ⊢
    omega
  have hcol : ⌊qz⌋.toNat / CELL_SIZE < m.rowCount := by
    unfold CELL_SIZE at hk ⊢
    omega
  have hfit : m.rowCount * m.rowCount < SIZE_T_RANGE := by
    have := hm.2.2.2.2
    rw [hm.2.2.2.1, hm.2.2.1] at this
    exact this
  refine ⟨_, hidx, ?_⟩
  rw [cellIndex_no_wrap _ _ _ (le_of_lt hrow) (le_of_lt hcol) hfit, hm.2.2.2.1, hm.2.2.1]
  exact cellIndex_lt _ _ _ hrow hcol

theorem fp_getCell_of_index (mode : RoundingMode) (m : Map) (p : Fp.Position) (index : Nat)
    (h : Fp.getCellIndex mode m p = Except.ok (Fp.adjustPosition mode m p, index)) :
    Fp.getCell mode m p =
      if index < m.cells.length then Except.ok (Fp.adjustPosition mode m p, index)
      else Except.error Exn.outOfRange := by
  have hidx : Fp.getCellIndex mode m (Fp.adjustPosition mode m p) =
      Except.ok (Fp.adjustPosition mode m p, index) := by
    unfold Fp.getCellIndex at h ⊢
    rw [fp_adjustPosition_idem mode]
    exact h
  unfold Fp.getCell
  simp only [hidx]

theorem load_mapHuge : load { id := some 0, size := some (2 ^ 36) } = Except.ok mapHuge := rfl

theorem fp_adjustPosition_congr (mode : RoundingMode) (m m1 : Map) (p : Fp.Position) (hs : m1.size = m.size) :
    Fp.adjustPosition mode m1 p = Fp.adjustPosition mode m p := by
  unfold Fp.adjustPosition
  rw [hs]

theorem fp_getCell_congr (mode : RoundingMode) (m m1 : Map) (p : Fp.Position) (hs : m1.size = m.size)
    (hr : m1.rowCount = m.rowCount) (hl : m1.cells.length = m.cells.length) :
    Fp.getCell mode m1 p = Fp.getCell mode m p := by
  have h : ∀ q : Fp.Position, Fp.adjustPosition mode m1 q = Fp.adjustPosition mode m q :=
    fun q => fp_adjustPosition_congr mode m m1 q hs
  unfold Fp.getCell Fp.getCellIndex
  simp only [h, hs, hr, hl]

theorem fp_add_of_getCell (mode : RoundingMode) (m : Map) (e : Fp.Entity) (q : Fp.Position) (cell : Nat)
    (h : Fp.getCell mode m (Fp.adjustPosition mode m e.position) = Except.ok (q, cell)) :
    Fp.add mode m e = Except.ok
      ({ m with cells := (updateCell (fun c => c.addEntity e.ref) m.cells cell) },
       { e with position := q }) := by
  unfold Fp.add
  simp only [h]

theorem fp_add_of_error (mode : RoundingMode) (m : Map) (e : Fp.Entity) (err : Exn)
    (h : Fp.getCell mode m (Fp.adjustPosition mode m e.position) = Except.error err) :
    Fp.add mode m e = Except.error err := by
  unfold Fp.add
  simp only [h]

theorem fp_remove_of_getCell (mode : RoundingMode) (m : Map) (e : Fp.Entity) (q : Fp.Position) (cell : Nat)
    (h : Fp.getCell mode m (Fp.adjustPosition mode m e.position) = Except.ok (q, cell)) :
    Fp.remove mode m e = Except.ok
      ({ m with cells := (updateCell (fun c => c.removeEntity e.ref) m.cells cell) },
       { e with position := q }) := by
  unfold Fp.remove
  simp only [h]

theorem load_map1000 : load { id := some 0, size := some 1000 } = Except.ok map1000 := rfl

theorem map1000_cells_length : map1000.cells.length = 3844 := List.length_replicate _ _

/-- C8 as stated fails.  `Map::load` accepts the size 1000 and builds 62 x 62 = 3844
cells; for the character 9 at (999, 0, 999), which no cell holds, `Map::add` computes the
cell index `62 + 62 * 62 = 3906` and `cells_.at` raises `std::out_of_range`, so nothing is
added.  On the map loaded with size 1024 an entity whose x and z are NaN is not added
either: the conversion of NaN to `size_t` is undefined. -/
theorem fp_add_fails :
    load { id := some 0, size := some 1000 } = Except.ok map1000 ∧
    map1000.Loaded ∧ map1000.cells.length = 3844 ∧
    (∀ c ∈ map1000.cells, ({ type := EntityType.Character, id := 9 } : EntityRef) ∉ c.entities) ∧
    Fp.getCellIndex RoundingMode.toNearest map1000
      { map := 0, x := Fp.Value.finite 999, y := Fp.Value.finite 0, z := Fp.Value.finite 999 } =
      Except.ok
        ({ map := 0, x := Fp.Value.finite 999, y := Fp.Value.finite 0,
           z := Fp.Value.finite 999 }, 3906) ∧
    Fp.add RoundingMode.toNearest map1000
      { ref := { type := EntityType.Character, id := 9 },
        position :=
          { map := 0, x := Fp.Value.finite 999, y := Fp.Value.finite 0,
            z := Fp.Value.finite 999 } } = Except.error Exn.outOfRange ∧
    Fp.add RoundingMode.toNearest map1024
      { ref := { type := EntityType.Character, id := 9 },
        position :=
          { map := 0, x := Fp.Value.nan, y := Fp.Value.finite 0, z := Fp.Value.nan } } =
      Except.error Exn.undefinedBehaviour := by
  have hidx : Fp.getCellIndex RoundingMode.toNearest map1000
      { map := 0, x := Fp.Value.finite 999, y := Fp.Value.finite 0, z := Fp.Value.finite 999 } =
      Except.ok
        (Fp.adjustPosition RoundingMode.toNearest map1000
          { map := 0, x := Fp.Value.finite 999, y := Fp.Value.finite 0,
            z := Fp.Value.finite 999 }, 3906) := rfl
  have hcell := fp_getCell_of_index RoundingMode.toNearest map1000 _ 3906 hidx
  rw [map1000_cells_length, if_neg (by decide)] at hcell
  refine ⟨load_map1000, load_loaded _ _ load_map1000 (by decide), map1000_cells_length, ?_,
    rfl, ?_, rfl⟩
  · intro c hc
    have hempty : c = { entities := [] } := List.eq_of_mem_replicate hc
    rw [hempty]
    exact List.not_mem_nil _
  · apply fp_add_of_error RoundingMode.toNearest
    have hadj : Fp.adjustPosition RoundingMode.toNearest map1000
        { map := 0, x := Fp.Value.finite 999, y := Fp.Value.finite 0,
          z := Fp.Value.finite 999 } =
        { map := 0, x := Fp.Value.finite 999, y := Fp.Value.finite 0,
          z := Fp.Value.finite 999 } := by decide
    show Fp.getCell RoundingMode.toNearest map1000 (Fp.adjustPosition RoundingMode.toNearest map1000 _) = _
    rw [hadj]
    exact hcell

theorem fp_adjustPosition_mode (mode other : RoundingMode) (m : Map) (p : Fp.Position)
    (hsize : 1 ≤ m.size) (hfloat : m.size < 2 ^ 24) :
    Fp.adjustPosition other m p = Fp.adjustPosition mode m p := by
  have hsub : sizeSub m.size 1 = m.size - 1 := sizeSub_one hsize (by omega)
  unfold Fp.adjustPosition
  rw [hsub, floatOfNat_small other m.size hfloat, floatOfNat_small mode m.size hfloat,
    floatOfNat_small other (m.size - 1) (by omega),
    floatOfNat_small mode (m.size - 1) (by omega)]

theorem fp_getCell_mode (mode other : RoundingMode) (m : Map) (p : Fp.Position)
    (hsize : 1 ≤ m.size) (hfloat : m.size < 2 ^ 24) :
    Fp.getCell other m p = Fp.getCell mode m p := by
  have h : ∀ q : Fp.Position, Fp.adjustPosition other m q = Fp.adjustPosition mode m q :=
    fun q => fp_adjustPosition_mode mode other m q hsize hfloat
  unfold Fp.getCell Fp.getCellIndex
  simp only [h]

/-- C8 (amended): on a loaded map (`rowCount = columnCount = size / 16` and
`rowCount * columnCount` cells, as `Map::load` builds them) whose size is a positive
multiple of 16 below `2 ^ 24`, for every entity that no cell holds and whose x and z
coordinates are not NaN, `Map::add` followed by `Map::remove` (position untouched in
between, whatever the rounding direction at either call) both succeed and resolve to the
same cell, the entity is in that cell in between, and afterwards the map has the same
cells, each with the same entities as before the add. -/
theorem fp_add_remove_restores (mode later : RoundingMode) (m : Map) (e : Fp.Entity)
    (hm : m.Loaded) (hpos : 0 < m.size) (hdiv : CELL_SIZE ∣ m.size) (hfloat : m.size < 2 ^ 24)
    (hx : e.position.x ≠ Fp.Value.nan) (hz : e.position.z ≠ Fp.Value.nan)
    (hfresh : ∀ c ∈ m.cells, e.ref ∉ c.entities) :
    ∃ (m1 : Map) (e1 : Fp.Entity) (m2 : Map) (e2 : Fp.Entity) (cell : Nat),
      Fp.add mode m e = Except.ok (m1, e1) ∧ Fp.remove later m1 e1 = Except.ok (m2, e2) ∧
      Fp.getCell mode m e.position = Except.ok (e1.position, cell) ∧
      Fp.getCell later m1 e1.position = Except.ok (e2.position, cell) ∧
      e.ref ∈ m1.entitiesAt cell ∧
      m2.cells.length = m.cells.length ∧
      (∀ (i : Nat) (r : EntityRef), r ∈ m2.entitiesAt i ↔ r ∈ m.entitiesAt i) := by
  obtain ⟨cell, hidx, hlt⟩ :=
    fp_getCellIndex_loaded mode m e.position hm hpos hdiv hfloat hx hz
  have hcell : Fp.getCell mode m e.position =
      Except.ok (Fp.adjustPosition mode m e.position, cell) := by
    rw [fp_getCell_of_index mode m e.position cell hidx, if_pos hlt]
  have hidx1 : Fp.getCellIndex mode m (Fp.adjustPosition mode m e.position) =
      Except.ok (Fp.adjustPosition mode m (Fp.adjustPosition mode m e.position), cell) := by
    rw [fp_adjustPosition_idem]
    unfold Fp.getCellIndex at hidx ⊢
    rw [fp_adjustPosition_idem]
    exact hidx
  have hcell1 : Fp.getCell mode m (Fp.adjustPosition mode m e.position) =
      Except.ok (Fp.adjustPosition mode m e.position, cell) := by
    rw [fp_getCell_of_index mode m _ cell hidx1, if_pos hlt, fp_adjustPosition_idem]
  have hback : updateCell (fun c => c.removeEntity e.ref)
      (updateCell (fun c => c.addEntity e.ref) m.cells cell) cell = m.cells := by
    rw [updateCell_twice]
    exact updateCell_fixed _ _ _ (fun c hc => removeEntity_addEntity c e.ref (hfresh c hc))
  have hadd := fp_add_of_getCell mode m e _ _ hcell1
  generalize hm1 : ({ m with cells := (updateCell (fun c => c.addEntity e.ref) m.cells
      cell) } : Map) = m1 at hadd
  have hs : m1.size = m.size := by rw [← hm1]
  have hr : m1.rowCount = m.rowCount := by rw [← hm1]
  have hc : m1.cells = updateCell (fun c => c.addEntity e.ref) m.cells cell := by rw [← hm1]
  have hl : m1.cells.length = m.cells.length := by rw [hc, updateCell_length]
  have hpos1 : 1 ≤ m1.size := by omega
  have hfloat1 : m1.size < 2 ^ 24 := by omega
  have hcell2 : Fp.getCell later m1 (Fp.adjustPosition mode m e.position) =
      Except.ok (Fp.adjustPosition mode m e.position, cell) := by
    rw [fp_getCell_mode mode later m1 _ hpos1 hfloat1, fp_getCell_congr mode m m1 _ hs hr hl]
    exact hcell1
  have hcell3 : Fp.getCell later m1
      (Fp.adjustPosition later m1 (Fp.adjustPosition mode m e.position)) =
      Except.ok (Fp.adjustPosition mode m e.position, cell) := by
    rw [fp_adjustPosition_mode mode later m1 _ hpos1 hfloat1,
      fp_adjustPosition_congr mode m m1 _ hs, fp_adjustPosition_idem]
    exact hcell2
  have hrem := fp_remove_of_getCell later m1
    { e with position := Fp.adjustPosition mode m e.position } _ _ hcell3
  have hm2 : ({ m1 with cells := (updateCell (fun c => c.removeEntity e.ref) m1.cells
      cell) } : Map) = m := by
    rw [hc, hback, ← hm1]
  rw [hm2] at hrem
  refine ⟨m1, { e with position := Fp.adjustPosition mode m e.position }, m,
    { e with position := Fp.adjustPosition mode m e.position }, cell,
    hadd, hrem, hcell, hcell2, ?_, rfl, fun _ _ => Iff.rfl⟩
  unfold Map.entitiesAt
  rw [hc, updateCell_get _ _ _ hlt, List.get?_eq_get hlt]
  simp [MapCell.addEntity]

/-- Witness for C8 (amended): on the map of size 32 the character 9 at
(plus infinity, NaN, -1) is clamped to (31, NaN, 0), goes into cell 1 under the default
rounding direction and is taken out of it again under `FE_TOWARDZERO`, the direction
that `Map::add` leaves behind. -/
theorem fp_add_remove_restores_witness :
    map32.Loaded ∧ 0 < map32.size ∧ CELL_SIZE ∣ map32.size ∧ map32.size < 2 ^ 24 ∧
    Fp.getCell RoundingMode.toNearest map32
      { map := 0, x := Fp.Value.posInf, y := Fp.Value.nan, z := Fp.Value.finite (-1) } =
      Except.ok
        ({ map := 0, x := Fp.Value.finite 31, y := Fp.Value.nan, z := Fp.Value.finite 0 }, 1) ∧
    ∃ (m1 : Map) (e1 : Fp.Entity) (m2 : Map) (e2 : Fp.Entity) (cell : Nat),
      Fp.add RoundingMode.toNearest map32
        { ref := { type := EntityType.Character, id := 9 },
          position :=
            { map := 0, x := Fp.Value.posInf, y := Fp.Value.nan,
              z := Fp.Value.finite (-1) } } = Except.ok (m1, e1) ∧
      Fp.remove RoundingMode.towardZero m1 e1 = Except.ok (m2, e2) ∧
      Fp.getCell RoundingMode.toNearest map32
        { map := 0, x := Fp.Value.posInf, y := Fp.Value.nan, z := Fp.Value.finite (-1) } =
        Except.ok (e1.position, cell) ∧
      Fp.getCell RoundingMode.towardZero m1 e1.position = Except.ok (e2.position, cell) ∧
      ({ type := EntityType.Character, id := 9 } : EntityRef) ∈ m1.entitiesAt cell ∧
      m2.cells.length = map32.cells.length ∧
      (∀ (i : Nat) (r : EntityRef), r ∈ m2.entitiesAt i ↔ r ∈ map32.entitiesAt i) :=
  ⟨by decide, by decide, by decide, by decide, rfl,
    fp_add_remove_restores RoundingMode.toNearest RoundingMode.towardZero map32
      { ref := { type := EntityType.Character, id := 9 },
        position :=
          { map := 0, x := Fp.Value.posInf, y := Fp.Value.nan, z := Fp.Value.finite (-1) } }
      (by decide) (by decide) (by decide) (by decide) (by decide) (by decide) (by decide)⟩

/-! ## Agreement of the two embeddings on finite coordinates -/

theorem fp_clamp_finite (mode : RoundingMode) (size : Nat) (a : ℚ) (hsize : 1 ≤ size) (hfloat : size < 2 ^ 24) :
    Fp.clamp (floatOfNat mode size) (floatOfNat mode (sizeSub size 1)) (Fp.Value.finite a) =
      Fp.Value.finite
        (if (if a < 0 then 0 else a) ≥ (size : ℚ) then ((sizeSub size 1 : Nat) : ℚ)
         else (if a < 0 then 0 else a)) := by
  have hsub : sizeSub size 1 = size - 1 := sizeSub_one hsize (by omega)
  rw [hsub, floatOfNat_small mode size hfloat, floatOfNat_small mode (size - 1) (by omega)]
  have h1 : (1 : ℚ) ≤ (size : ℚ) := by exact_mod_cast hsize
  by_cases ha : a < 0
  · have hno : ¬ ((size : ℚ) ≤ 0) := by linarith
    simp [Fp.clamp, Fp.floorZero, Fp.Value.lt, Fp.Value.ge, ha, hno]
  · by_cases hb : (size : ℚ) ≤ a
    · simp [Fp.clamp, Fp.floorZero, Fp.Value.lt, Fp.Value.ge, ha, hb]
    · simp [Fp.clamp, Fp.floorZero, Fp.Value.lt, Fp.Value.ge, ha, hb]

/-- On a map with `1 <= size < 2 ^ 24` the adjustment of a position with finite
coordinates is the same in both embeddings. -/
theorem fp_adjustPosition_toFp (mode : RoundingMode) (m : Map) (p : Position) (hsize : 1 ≤ m.size)
    (hfloat : m.size < 2 ^ 24) :
    Fp.adjustPosition mode m p.toFp = (adjustPosition m p).toFp := by
  apply fp_position_eq
  · rw [fp_adjustPosition_map mode]
    show p.map = (adjustPosition m p).map
    rw [adjustPosition_map]
  · rw [fp_adjustPosition_x mode]
    show Fp.clamp _ _ (Fp.Value.finite p.x) = Fp.Value.finite (adjustPosition m p).x
    rw [fp_clamp_finite mode m.size p.x hsize hfloat, adjustPosition_x]
  · rw [fp_adjustPosition_y mode]
    show Fp.floorZero (Fp.Value.finite p.y) = Fp.Value.finite (adjustPosition m p).y
    rw [adjustPosition_y]
    by_cases ha : p.y < 0 <;> simp [Fp.floorZero, Fp.Value.lt, ha]
  · rw [fp_adjustPosition_z mode]
    show Fp.clamp _ _ (Fp.Value.finite p.z) = Fp.Value.finite (adjustPosition m p).z
    rw [fp_clamp_finite mode m.size p.z hsize hfloat, adjustPosition_z]

/-- On a map with `1 <= size < 2 ^ 24` the cell index of a position with finite
coordinates is the same in both embeddings, and the conversion to `size_t` is defined. -/
theorem fp_getCellIndex_toFp (mode : RoundingMode) (m : Map) (p : Position) (hsize : 1 ≤ m.size)
    (hfloat : m.size < 2 ^ 24) :
    Fp.getCellIndex mode m p.toFp =
      Except.ok ((getCellIndex m p).1.toFp, (getCellIndex m p).2) := by
  have hrange : m.size < SIZE_T_RANGE := by
    unfold SIZE_T_RANGE
    omega
  obtain ⟨hx0, hx1⟩ := adjustPosition_x_range m p hsize hrange
  obtain ⟨hz0, hz1⟩ := adjustPosition_z_range m p hsize hrange
  have hadj := fp_adjustPosition_toFp mode m p hsize hfloat
  have hx : (Fp.adjustPosition mode m p.toFp).x = Fp.Value.finite (adjustPosition m p).x := by
    rw [hadj]
    rfl
  have hz : (Fp.adjustPosition mode m p.toFp).z = Fp.Value.finite (adjustPosition m p).z := by
    rw [hadj]
    rfl
  rw [fp_getCellIndex_of_finite mode m p.toFp _ _ hx hz hx0 hx1 hz0 hz1 hrange, hadj]
  obtain ⟨ex, _⟩ := cellCoord_towardZero m.size _ hx0 hx1 hrange
  obtain ⟨ez, _⟩ := cellCoord_towardZero m.size _ hz0 hz1 hrange
  show _ = Except.ok ((adjustPosition m p).toFp,
    sizeAdd (min _ _ / CELL_SIZE) (sizeMul (min _ _ / CELL_SIZE) m.rowCount))
  rw [ex, ez]

end Eden
